import Mathlib

/-!
Shallow embedding of the CourseScheduler timetable engine
(`src/scheduler.py`, class `ScheduleGenerator`) together with proofs of the
specification's testable properties.

Modelling conventions:
* Times are minutes since midnight (`Nat`); the Python code converts its
  `datetime.time` inputs to exactly these minute counts.
* A time slot is represented by its `(start, stop)` minute pair.  The Python
  code keys its ledgers by the formatted label `"HH:MM-HH:MM"`; the formatting
  (`formatSlot` below) is injective on minute pairs, so the two keyings agree.
* The three per-run occupancy dictionaries (`class_schedule`,
  `teacher_schedule`, `room_schedule`) are modelled as total functions
  `name → day → slot → Option Assignment`, initially constantly `none` —
  exactly the dictionaries pre-populated with `None` by `__init__`.
* `random.shuffle` is modelled by an oracle `g : Shuffle` handed the index of
  the shuffle call (the Python RNG state advances with each call) and the list
  to rearrange.  A run of the Python program corresponds to an oracle that is
  a permutation at every call; `PermFair` states that property and theorems
  assume it exactly where the behaviour of the code depends on it.
* The Python `while` loop of `_generate_time_slots` is modelled with explicit
  fuel `end_minutes + 1`; for every positive period length the loop advances
  its cursor by at least one minute per emitted slot and the cursor never
  exceeds `end_minutes`, so this fuel is never exhausted.
-/

namespace CourseScheduler

/-! ## Data model -/

/-- A teacher record; the engine uses only the name. -/
structure Teacher where
  name : String
deriving DecidableEq

/-- A room record: name and integer capacity. -/
structure Room where
  name : String
  capacity : Nat
deriving DecidableEq

/-- A class record: name and integer size (student count). -/
structure SchoolClass where
  name : String
  size : Nat
deriving DecidableEq

/-- A course: name, teacher name, class name and weekly frequency. -/
structure Course where
  name : String
  teacher : String
  cls : String
  frequency : Nat
deriving DecidableEq

/-- A time slot, as the pair of its start and end minute-of-day. -/
structure Slot where
  start : Nat
  stop : Nat
deriving DecidableEq

/-- The assignment record committed into the ledgers (the dict built in
`_assign_time_slot`). -/
structure Assignment where
  course : String
  teacher : String
  room : String
  cls : String
  day : String
  time : Slot
deriving DecidableEq

/-- A conflict record (the dicts appended to `conflicts`). -/
structure Conflict where
  type : String
  day : String
  time : String
  description : String
deriving DecidableEq

/-- `self.days = ["Monday", ..., "Friday"]`. -/
def days : List String := ["Monday", "Tuesday", "Wednesday", "Thursday", "Friday"]

/-! ## Time-slot formatting (`f"{m // 60:02d}:{m % 60:02d}"`) -/

/-- Python's `{n:02d}`: decimal, left-padded with `0` to width two. -/
def pad2 (n : Nat) : String := if n < 10 then "0" ++ toString n else toString n

/-- A minute-of-day as `"HH:MM"`. -/
def formatTime (m : Nat) : String := pad2 (m / 60) ++ ":" ++ pad2 (m % 60)

/-- A slot label `"HH:MM-HH:MM"`. -/
def formatSlot (t : Slot) : String := formatTime t.start ++ "-" ++ formatTime t.stop

/-! ## Time Grid Builder (`_generate_time_slots`) -/

/-- The grid options handed to `ScheduleGenerator.__init__`: start and end of
day already converted to minutes since midnight, period length, break length,
lunch rule string and lunch duration. -/
structure GridConfig where
  start_minutes : Nat
  end_minutes : Nat
  period_length : Nat
  break_length : Nat
  lunch_period : String
  lunch_duration : Nat
deriving DecidableEq

/-- The lunch test of `_generate_time_slots`: lunch is inserted after the
period whose counter the configured rule names. -/
def lunchAfter (cfg : GridConfig) (period_counter : Nat) : Bool :=
  (cfg.lunch_period == "After period 3" && period_counter == 3) ||
  (cfg.lunch_period == "After period 4" && period_counter == 4)

/-- The `while current_minutes + period_length <= end_minutes` loop of
`_generate_time_slots`, with explicit fuel. -/
def slotsLoop (cfg : GridConfig) : Nat → Nat → Nat → List Slot
  | 0, _, _ => []
  | fuel + 1, current, counter =>
    if current + cfg.period_length ≤ cfg.end_minutes then
      let period_end := current + cfg.period_length
      let nxt := if lunchAfter cfg counter then period_end + cfg.lunch_duration
                 else period_end + cfg.break_length
      ⟨current, period_end⟩ :: slotsLoop cfg fuel nxt (counter + 1)
    else []

/-- `_generate_time_slots`: run the loop from the start of day with period
counter 1.  The fuel `end_minutes + 1` bounds the iteration count whenever the
period length is positive. -/
def generate_time_slots (cfg : GridConfig) : List Slot :=
  slotsLoop cfg (cfg.end_minutes + 1) cfg.start_minutes 1

/-! ## Course ordering
(`sorted(self.courses, key=lambda x: (-x['frequency'], x['name']))`;
Python's `sorted` is a stable sort, which a stable insertion sort realises) -/

/-- Lexicographic order on code points, Python's string `<=`. -/
def charsLE : List Char → List Char → Bool
  | [], _ => true
  | _ :: _, [] => false
  | a :: as, b :: bs => if a < b then true else if b < a then false else charsLE as bs

/-- String comparison as Python compares course names. -/
def strLE (a b : String) : Bool := charsLE a.data b.data

/-- `a` sorts no later than `b` under the key `(-frequency, name)`. -/
def courseLE (a b : Course) : Bool :=
  decide (b.frequency < a.frequency) ||
    ((a.frequency == b.frequency) && strLE a.name b.name)

/-- Insert into a sorted list, before the first element not strictly smaller:
stable for a total preorder `le`. -/
def orderedInsert {α : Type} (le : α → α → Bool) (a : α) : List α → List α
  | [] => [a]
  | b :: l => if le a b then a :: b :: l else b :: orderedInsert le a l

/-- Stable insertion sort. -/
def insertionSort {α : Type} (le : α → α → Bool) : List α → List α
  | [] => []
  | a :: l => orderedInsert le a (insertionSort le l)

/-- `sorted_courses` of `generate_schedule`. -/
def sortCourses (courses : List Course) : List Course :=
  insertionSort courseLE courses

/-! ## Resource ledgers and engine state -/

/-- One occupancy map: entity name → day → slot → optional assignment. -/
abbrev Ledger := String → String → Slot → Option Assignment

/-- The mutable state of one generation run: the three ledgers plus the
position on the random tape (how many `random.shuffle` calls happened). -/
structure SState where
  class_schedule : Ledger
  teacher_schedule : Ledger
  room_schedule : Ledger
  pos : Nat

/-- The freshly initialised state of `__init__`: every cell `None`. -/
def initState : SState := ⟨fun _ _ _ => none, fun _ _ _ => none, fun _ _ _ => none, 0⟩

/-- The randomness oracle: given the index of the shuffle call and a list,
return its rearrangement. -/
abbrev Shuffle := (α : Type) → Nat → List α → List α

/-- The oracle behaves like `random.shuffle`: every answer is a permutation of
the list it was asked to rearrange. -/
def PermFair (g : Shuffle) : Prop :=
  ∀ (α : Type) (k : Nat) (l : List α), (g α k l).Perm l

/-- The identity oracle (a legal outcome of `random.shuffle`). -/
def idShuffle : Shuffle := fun _ _ l => l

/-- `_is_slot_available`: the three early-return freeness checks. -/
def is_slot_available (st : SState) (class_name teacher_name room_name day : String)
    (time_slot : Slot) : Bool :=
  if (st.class_schedule class_name day time_slot).isSome then false
  else if (st.teacher_schedule teacher_name day time_slot).isSome then false
  else if (st.room_schedule room_name day time_slot).isSome then false
  else true

/-- Write one ledger cell (a Python dict update). -/
def writeCell (f : Ledger) (n d : String) (t : Slot) (a : Assignment) : Ledger :=
  fun n' d' t' => if n' = n ∧ d' = d ∧ t' = t then some a else f n' d' t'

/-- `_assign_time_slot`: build the assignment record and write it into all
three ledgers.  Note: the Python method performs no freeness check and raises
no error; it overwrites whatever the cells held. -/
def assign_time_slot (st : SState) (course : Course)
    (class_name teacher_name room_name day : String) (time_slot : Slot) : SState :=
  let assignment : Assignment :=
    ⟨course.name, teacher_name, room_name, class_name, day, time_slot⟩
  { st with
    class_schedule := writeCell st.class_schedule class_name day time_slot assignment
    teacher_schedule := writeCell st.teacher_schedule teacher_name day time_slot assignment
    room_schedule := writeCell st.room_schedule room_name day time_slot assignment }

/-- The scan of `_find_available_room` over the shuffled suitable rooms. -/
def firstFreeRoom (st : SState) (day : String) (time_slot : Slot) :
    List Room → Option String
  | [] => none
  | room :: rest =>
    if (st.room_schedule room.name day time_slot).isNone then some room.name
    else firstFreeRoom st day time_slot rest

/-- `_find_available_room`: filter rooms by capacity, shuffle, return the
first whose room-ledger cell is free.  Consumes one shuffle call. -/
def find_available_room (g : Shuffle) (rooms : List Room) (class_size : Nat)
    (day : String) (time_slot : Slot) (st : SState) : Option String × SState :=
  let suitable_rooms := rooms.filter (fun room => decide (class_size ≤ room.capacity))
  let shuffled := g Room st.pos suitable_rooms
  (firstFreeRoom st day time_slot shuffled, { st with pos := st.pos + 1 })

/-- `_get_class_size`: first class with the given name, else 0. -/
def get_class_size (classes : List SchoolClass) (class_name : String) : Nat :=
  match classes with
  | [] => 0
  | cls :: rest => if cls.name = class_name then cls.size else get_class_size rest class_name

/-- The inner `for time_slot in time_slots` loop of one session search:
find a room, re-check availability, stop at the first success. -/
def try_slots (g : Shuffle) (rooms : List Room) (class_name teacher_name : String)
    (class_size : Nat) (day : String) (st : SState) :
    List Slot → Option (String × Slot) × SState
  | [] => (none, st)
  | time_slot :: rest =>
    match find_available_room g rooms class_size day time_slot st with
    | (some room_name, st1) =>
      if is_slot_available st1 class_name teacher_name room_name day time_slot then
        (some (room_name, time_slot), st1)
      else try_slots g rooms class_name teacher_name class_size day st1 rest
    | (none, st1) => try_slots g rooms class_name teacher_name class_size day st1 rest

/-- The `for day in days` loop of one session search.  A candidate day is
skipped exactly when the course already sits on that day *and* skipping does
not exhaust the week (`day in assigned_days and len(assigned_days) < len(self.days)`);
otherwise the slot sequence is shuffled and searched. -/
def try_days (g : Shuffle) (rooms : List Room) (time_slots : List Slot)
    (class_name teacher_name : String) (class_size : Nat)
    (assigned_days : List String) (ndays : Nat) (st : SState) :
    List String → Option (String × String × Slot) × SState
  | [] => (none, st)
  | day :: rest =>
    if day ∈ assigned_days ∧ assigned_days.length < ndays then
      try_days g rooms time_slots class_name teacher_name class_size
        assigned_days ndays st rest
    else
      let shuffled_slots := g Slot st.pos time_slots
      let st1 : SState := { st with pos := st.pos + 1 }
      match try_slots g rooms class_name teacher_name class_size day st1 shuffled_slots with
      | (some (room_name, time_slot), st2) => (some (day, room_name, time_slot), st2)
      | (none, st2) =>
        try_days g rooms time_slots class_name teacher_name class_size
          assigned_days ndays st2 rest

/-- Python's `set.add` on the assigned-day set. -/
def insertDay (day : String) (assigned_days : List String) : List String :=
  if day ∈ assigned_days then assigned_days else day :: assigned_days

/-- The `'Unscheduled Session'` conflict record appended when a session finds
no (day, slot, room). -/
def unscheduledConflict (course : Course) : Conflict :=
  ⟨"Unscheduled Session", "N/A", "N/A",
    "Could not schedule a session for " ++ course.name ++ " (Class: " ++ course.cls ++
      ", Teacher: " ++ course.teacher ++ ")"⟩

/-- The `for _ in range(required_sessions)` loop of one course: shuffle the
days, search, on success commit and remember the day, on failure record an
unscheduled-session conflict.  Returns the final state, the assigned-day set,
the number of sessions scheduled and the conflicts in the order appended. -/
def run_sessions (g : Shuffle) (dayList : List String) (time_slots : List Slot)
    (rooms : List Room) (course : Course) (class_size : Nat) :
    Nat → List String → SState → SState × List String × Nat × List Conflict
  | 0, assigned_days, st => (st, assigned_days, 0, [])
  | n + 1, assigned_days, st =>
    let shuffled_days := g String st.pos dayList
    let st1 : SState := { st with pos := st.pos + 1 }
    match try_days g rooms time_slots course.cls course.teacher class_size
        assigned_days dayList.length st1 shuffled_days with
    | (some (day, room_name, time_slot), st2) =>
      let st3 := assign_time_slot st2 course course.cls course.teacher room_name day time_slot
      let r := run_sessions g dayList time_slots rooms course class_size n
        (insertDay day assigned_days) st3
      (r.1, r.2.1, r.2.2.1 + 1, r.2.2.2)
    | (none, st2) =>
      let r := run_sessions g dayList time_slots rooms course class_size n assigned_days st2
      (r.1, r.2.1, r.2.2.1, unscheduledConflict course :: r.2.2.2)

/-- The per-(course name, class name) fulfilled-session tally
(`course_sessions`), total with default 0. -/
abbrev SessionCounts := String × String → Nat

/-- Add a course's scheduled-session count to its tally key. -/
def bumpCount (counts : SessionCounts) (key : String × String) (k : Nat) : SessionCounts :=
  fun key' => if key' = key then counts key' + k else counts key'

/-- The first pass of `generate_schedule`: process the (sorted) courses in
order, each with a fresh empty assigned-day set. -/
def run_courses (g : Shuffle) (dayList : List String) (time_slots : List Slot)
    (rooms : List Room) (classes : List SchoolClass) :
    List Course → SessionCounts → SState → SState × SessionCounts × List Conflict
  | [], counts, st => (st, counts, [])
  | course :: rest, counts, st =>
    let class_size := get_class_size classes course.cls
    let r1 := run_sessions g dayList time_slots rooms course class_size
      course.frequency [] st
    let counts1 := bumpCount counts (course.name, course.cls) r1.2.2.1
    let r2 := run_courses g dayList time_slots rooms classes rest counts1 r1.1
    (r2.1, r2.2.1, r1.2.2.2 ++ r2.2.2)

/-! ## Conflict auditing and schedule collection -/

/-- Helper for `uniqueKeys`: drop every element already seen. -/
def uniqueKeysAux {α : Type} [DecidableEq α] (seen : List α) : List α → List α
  | [] => []
  | x :: xs =>
    if x ∈ seen then uniqueKeysAux seen xs
    else x :: uniqueKeysAux (x :: seen) xs

/-- Iteration order of the keys of a Python dict built by comprehension over a
list: first occurrences, in order. -/
def uniqueKeys {α : Type} [DecidableEq α] (l : List α) : List α :=
  uniqueKeysAux [] l

/-- Collect the schedule: every non-`None` class-ledger cell, iterating class
keys, then days, then slots. -/
def collectSchedule (st : SState) (classKeys dayList : List String)
    (time_slots : List Slot) : List Assignment :=
  classKeys.flatMap (fun class_name =>
    dayList.flatMap (fun day =>
      time_slots.filterMap (fun time_slot => st.class_schedule class_name day time_slot)))

/-- `classes_at_time` of the teacher/room conflict scans: class keys whose
cell at (day, slot) holds an assignment naming `nm` under the projection `f`. -/
def classes_at_time (st : SState) (classKeys : List String) (day : String)
    (time_slot : Slot) (f : Assignment → String) (nm : String) : List String :=
  classKeys.filter (fun class_name =>
    decide ((st.class_schedule class_name day time_slot).map f = some nm))

/-- The teacher-conflict scan of `generate_schedule`. -/
def teacherConflicts (st : SState) (teacherKeys classKeys dayList : List String)
    (time_slots : List Slot) : List Conflict :=
  teacherKeys.flatMap (fun teacher_name =>
    dayList.flatMap (fun day =>
      time_slots.flatMap (fun time_slot =>
        let cs := classes_at_time st classKeys day time_slot Assignment.teacher teacher_name
        if 1 < cs.length then
          [⟨"Teacher Conflict", day, formatSlot time_slot,
            "Teacher " ++ teacher_name ++ " is scheduled for multiple classes: " ++
              String.intercalate ", " cs⟩]
        else [])))

/-- The room-conflict scan of `generate_schedule`. -/
def roomConflicts (st : SState) (roomKeys classKeys dayList : List String)
    (time_slots : List Slot) : List Conflict :=
  roomKeys.flatMap (fun room_name =>
    dayList.flatMap (fun day =>
      time_slots.flatMap (fun time_slot =>
        let cs := classes_at_time st classKeys day time_slot Assignment.room room_name
        if 1 < cs.length then
          [⟨"Room Conflict", day, formatSlot time_slot,
            "Room " ++ room_name ++ " is scheduled for multiple classes: " ++
              String.intercalate ", " cs⟩]
        else [])))

/-- `next((c['frequency'] for c in courses if name and class match), 0)`. -/
def requiredSessions (courses : List Course) (key : String × String) : Nat :=
  match courses with
  | [] => 0
  | c :: rest =>
    if c.name = key.1 ∧ c.cls = key.2 then c.frequency else requiredSessions rest key

/-- The `'Frequency Not Met'` record for one course key. -/
def frequencyConflict (course_name class_name : String) (assigned required : Nat) : Conflict :=
  ⟨"Frequency Not Met", "N/A", "N/A",
    "Course " ++ course_name ++ " (Class: " ++ class_name ++ ") was scheduled for " ++
      toString assigned ++ "/" ++ toString required ++ " required sessions"⟩

/-- The frequency-fulfillment scan over the tally's keys. -/
def frequencyConflicts (courses : List Course) (counts : SessionCounts) : List Conflict :=
  (uniqueKeys (courses.map (fun c => (c.name, c.cls)))).flatMap (fun key =>
    let required := requiredSessions courses key
    if counts key < required then
      [frequencyConflict key.1 key.2 (counts key) required]
    else [])

/-! ## The full `generate_schedule` -/

/-- The entity lists handed to `ScheduleGenerator.__init__`. -/
structure ScheduleInput where
  teachers : List Teacher
  rooms : List Room
  classes : List SchoolClass
  courses : List Course

/-- The scheduling pass of `generate_schedule`: sort the courses, run them
against fresh ledgers, return the final state, the session tally and the
unscheduled-session conflicts. -/
def generate_core (g : Shuffle) (inp : ScheduleInput) (time_slots : List Slot) :
    SState × SessionCounts × List Conflict :=
  run_courses g days time_slots inp.rooms inp.classes (sortCourses inp.courses)
    (fun _ => 0) initState

/-- `generate_schedule`: the scheduling pass followed by schedule collection
and the three audit scans; conflicts are returned in the order appended. -/
def generate_schedule (g : Shuffle) (inp : ScheduleInput) (time_slots : List Slot) :
    List Assignment × List Conflict :=
  let r := generate_core g inp time_slots
  let classKeys := uniqueKeys (inp.classes.map SchoolClass.name)
  let teacherKeys := uniqueKeys (inp.teachers.map Teacher.name)
  let roomKeys := uniqueKeys (inp.rooms.map Room.name)
  (collectSchedule r.1 classKeys days time_slots,
    r.2.2 ++ teacherConflicts r.1 teacherKeys classKeys days time_slots
      ++ roomConflicts r.1 roomKeys classKeys days time_slots
      ++ frequencyConflicts inp.courses r.2.1)

/-- `__init__` followed by `generate_schedule`: build the time grid from the
options, then schedule. -/
def generate_schedule_from_config (g : Shuffle) (inp : ScheduleInput)
    (cfg : GridConfig) : List Assignment × List Conflict :=
  generate_schedule g inp (generate_time_slots cfg)

/-! ## Properties of the Time Grid Builder -/

theorem slotsLoop_mem (cfg : GridConfig) :
    ∀ (fuel current counter : Nat), ∀ s ∈ slotsLoop cfg fuel current counter,
      s.stop = s.start + cfg.period_length ∧ current ≤ s.start ∧
        s.start + cfg.period_length ≤ cfg.end_minutes := by
  intro fuel
  induction fuel with
  | zero => intro current counter s hs; simp [slotsLoop] at hs
  | succ n ih =>
    intro current counter s hs
    rw [slotsLoop] at hs
    by_cases hg : current + cfg.period_length ≤ cfg.end_minutes
    · rw [if_pos hg] at hs
      rcases List.mem_cons.mp hs with h | h
      · subst h; exact ⟨rfl, Nat.le_refl _, hg⟩
      · rcases ih _ (counter + 1) s h with ⟨h1, h2, h3⟩
        refine ⟨h1, ?_, h3⟩
        by_cases hl : lunchAfter cfg counter = true
        · rw [if_pos hl] at h2; omega
        · rw [if_neg hl] at h2; omega
    · rw [if_neg hg] at hs; simp at hs

theorem slotsLoop_pairwise (cfg : GridConfig) (hP : 0 < cfg.period_length) :
    ∀ (fuel current counter : Nat),
      List.Pairwise (fun s1 s2 => s1.start < s2.start ∧ s1.stop ≤ s2.start)
        (slotsLoop cfg fuel current counter) := by
  intro fuel
  induction fuel with
  | zero => intro current counter; simp [slotsLoop]
  | succ n ih =>
    intro current counter
    rw [slotsLoop]
    by_cases hg : current + cfg.period_length ≤ cfg.end_minutes
    · rw [if_pos hg]
      refine List.Pairwise.cons ?_ (ih _ _)
      intro s hs
      rcases slotsLoop_mem cfg n _ _ s hs with ⟨_, h2, _⟩
      constructor
      · show current < s.start
        by_cases hl : lunchAfter cfg counter = true
        · rw [if_pos hl] at h2; omega
        · rw [if_neg hl] at h2; omega
      · show current + cfg.period_length ≤ s.start
        by_cases hl : lunchAfter cfg counter = true
        · rw [if_pos hl] at h2; omega
        · rw [if_neg hl] at h2; omega
    · rw [if_neg hg]; exact List.Pairwise.nil

theorem slotsLoop_head (cfg : GridConfig) (fuel current counter : Nat) (s : Slot)
    (t : List Slot) (h : slotsLoop cfg fuel current counter = s :: t) :
    s = ⟨current, current + cfg.period_length⟩ := by
  cases fuel with
  | zero => simp [slotsLoop] at h
  | succ n =>
    rw [slotsLoop] at h
    by_cases hg : current + cfg.period_length ≤ cfg.end_minutes
    · rw [if_pos hg] at h
      exact (List.cons.injEq _ _ _ _ ▸ h).1.symm ▸ rfl
    · rw [if_neg hg] at h; simp at h

/-- Transfer an adjacency property along a `cons`. -/
theorem get_cons_adjacent (x : Slot) (xs : List Slot) (gap : Nat → Nat) (counter : Nat)
    (hhead : ∀ h0 : 0 < xs.length, (xs.get ⟨0, h0⟩).start = x.stop + gap counter)
    (htail : ∀ i (h : i + 1 < xs.length),
      (xs.get ⟨i + 1, h⟩).start = (xs.get ⟨i, Nat.lt_of_succ_lt h⟩).stop + gap (counter + 1 + i)) :
    ∀ i (h : i + 1 < (x :: xs).length),
      ((x :: xs).get ⟨i + 1, h⟩).start =
        ((x :: xs).get ⟨i, Nat.lt_of_succ_lt h⟩).stop + gap (counter + i) := by
  intro i h
  cases i with
  | zero =>
    have h0 : 0 < xs.length := Nat.lt_of_succ_lt_succ h
    simpa using hhead h0
  | succ j =>
    have h' : j + 1 < xs.length := Nat.lt_of_succ_lt_succ h
    have := htail j h'
    have harith : counter + 1 + j = counter + (j + 1) := by omega
    rw [harith] at this
    simpa using this

theorem slotsLoop_adjacent (cfg : GridConfig) :
    ∀ (fuel current counter : Nat),
      ∀ i (h : i + 1 < (slotsLoop cfg fuel current counter).length),
      ((slotsLoop cfg fuel current counter).get ⟨i + 1, h⟩).start =
        ((slotsLoop cfg fuel current counter).get ⟨i, Nat.lt_of_succ_lt h⟩).stop +
          (if lunchAfter cfg (counter + i) then cfg.lunch_duration else cfg.break_length) := by
  intro fuel
  induction fuel with
  | zero => intro current counter i h; exfalso; simp [slotsLoop] at h
  | succ n ih =>
    intro current counter
    by_cases hg : current + cfg.period_length ≤ cfg.end_minutes
    · have heq : slotsLoop cfg (n + 1) current counter =
          ⟨current, current + cfg.period_length⟩ ::
            slotsLoop cfg n
              (if lunchAfter cfg counter then
                current + cfg.period_length + cfg.lunch_duration
              else current + cfg.period_length + cfg.break_length) (counter + 1) := by
        rw [slotsLoop, if_pos hg]
      rw [heq]
      refine get_cons_adjacent _ _
        (fun k => if lunchAfter cfg k then cfg.lunch_duration else cfg.break_length)
        counter ?_ (ih _ (counter + 1))
      intro h0
      rcases List.exists_cons_of_ne_nil (List.ne_nil_of_length_pos h0) with ⟨s, t, hst⟩
      have hs := slotsLoop_head cfg n _ _ s t hst
      revert h0
      rw [hst]
      intro h0
      simp only [List.get]
      rw [hs]
      by_cases hl : lunchAfter cfg counter = true
      · simp [hl]
      · simp [hl]
    · intro i h
      exfalso
      rw [slotsLoop, if_neg hg] at h
      simp at h

theorem generate_time_slots_eq_nil_iff (cfg : GridConfig) :
    generate_time_slots cfg = [] ↔
      cfg.end_minutes < cfg.start_minutes + cfg.period_length := by
  rw [generate_time_slots, slotsLoop]
  by_cases hg : cfg.start_minutes + cfg.period_length ≤ cfg.end_minutes
  · rw [if_pos hg]; simp; omega
  · rw [if_neg hg]; simp; omega

theorem generate_time_slots_nodup (cfg : GridConfig) (hP : 0 < cfg.period_length) :
    (generate_time_slots cfg).Nodup := by
  have h := slotsLoop_pairwise cfg hP (cfg.end_minutes + 1) cfg.start_minutes 1
  exact h.imp (fun hlt => by
    intro he
    rw [he] at hlt
    exact Nat.lt_irrefl _ hlt.1)

/-- C6: for every valid grid configuration (start < end, positive period
length, nonnegative break, positive lunch duration when a lunch rule is
enabled), the produced slots are in strictly increasing start order, no two
slots overlap (each ends no later than any later slot starts), and every
slot's duration is exactly the configured period length. -/
theorem grid_slots_ordered (cfg : GridConfig)
    (hse : cfg.start_minutes < cfg.end_minutes)
    (hP : 0 < cfg.period_length)
    (hL : (cfg.lunch_period = "After period 3" ∨ cfg.lunch_period = "After period 4") →
      0 < cfg.lunch_duration) :
    List.Pairwise (fun s1 s2 => s1.start < s2.start ∧ s1.stop ≤ s2.start)
      (generate_time_slots cfg) ∧
    ∀ s ∈ generate_time_slots cfg, s.stop = s.start + cfg.period_length := by
  constructor
  · exact slotsLoop_pairwise cfg hP _ _ _
  · intro s hs
    exact (slotsLoop_mem cfg _ _ _ s hs).1

/-- C6 witness: the defaults of the app (08:00..15:15, 50-minute periods,
10-minute breaks, lunch after period 3). -/
theorem grid_slots_ordered_witness :
    (480 < 915 ∧ 0 < 50 ∧
      (("After period 3" : String) = "After period 3" ∨
        ("After period 3" : String) = "After period 4" → 0 < 30)) ∧
    (List.Pairwise (fun s1 s2 : Slot => s1.start < s2.start ∧ s1.stop ≤ s2.start)
      (generate_time_slots ⟨480, 915, 50, 10, "After period 3", 30⟩) ∧
    ∀ s ∈ generate_time_slots ⟨480, 915, 50, 10, "After period 3", 30⟩,
      s.stop = s.start + 50) :=
  ⟨by decide,
    grid_slots_ordered ⟨480, 915, 50, 10, "After period 3", 30⟩ (by decide) (by decide)
      (fun _ => by decide)⟩

/-- C7 counterexample: with start 08:00, end 08:20 and 50-minute periods the
first slot cannot fit, yet no `ConfigurationError` exists anywhere in the
code: `_generate_time_slots` returns the ordinary value `[]` and
`generate_schedule` still runs to completion, producing conflict records
(here one unscheduled session and one frequency shortfall) instead of
aborting before any scheduling attempt. -/
theorem c7_no_configuration_error :
    generate_time_slots ⟨480, 500, 50, 10, "No lunch", 30⟩ = [] ∧
    (generate_schedule_from_config idShuffle
        ⟨[⟨"T"⟩], [⟨"R", 30⟩], [⟨"C", 25⟩], [⟨"M", "T", "C", 1⟩]⟩
        ⟨480, 500, 50, 10, "No lunch", 30⟩).2.map Conflict.type =
      ["Unscheduled Session", "Frequency Not Met"] := by
  decide

/-- C7 amended: when the first slot cannot fit (`start + P > end`) the Time
Grid Builder raises nothing and returns the empty slot sequence (scheduling
then proceeds against an empty grid, see the C10 theorem); for every other
configuration with a positive period length it returns a non-empty, strictly
ordered slot sequence. -/
theorem c7_amended (cfg : GridConfig) (hP : 0 < cfg.period_length) :
    (cfg.end_minutes < cfg.start_minutes + cfg.period_length →
      generate_time_slots cfg = []) ∧
    (cfg.start_minutes + cfg.period_length ≤ cfg.end_minutes →
      generate_time_slots cfg ≠ [] ∧
        List.Pairwise (fun s1 s2 => s1.start < s2.start ∧ s1.stop ≤ s2.start)
          (generate_time_slots cfg)) := by
  constructor
  · intro h
    exact (generate_time_slots_eq_nil_iff cfg).2 h
  · intro h
    refine ⟨?_, slotsLoop_pairwise cfg hP _ _ _⟩
    intro he
    have := (generate_time_slots_eq_nil_iff cfg).1 he
    omega

/-- C7 amended witness: both branches at concrete configurations. -/
theorem c7_amended_witness :
    (0 < 50 ∧
      (915 < 480 + 50 → generate_time_slots ⟨480, 915, 50, 10, "No lunch", 30⟩ = [])) ∧
    (0 < 50 ∧
      (480 + 50 ≤ 500 → False) ∧
      generate_time_slots ⟨480, 500, 50, 10, "No lunch", 30⟩ = []) :=
  ⟨⟨by decide, (c7_amended ⟨480, 915, 50, 10, "No lunch", 30⟩ (by decide)).1⟩,
    by decide, by decide, by decide⟩

/-- C8: between consecutive emitted slots the gap is the break length, except
right after the period named by the lunch rule, where it is the lunch
duration; `lunchAfter cfg (i + 1)` is exactly the code's test of whether the
lunch rule names period `i + 1` (the 1-based period number of slot index `i`). -/
theorem grid_lunch_gaps (cfg : GridConfig) (i : Nat)
    (h : i + 1 < (generate_time_slots cfg).length) :
    ((generate_time_slots cfg).get ⟨i + 1, h⟩).start =
      ((generate_time_slots cfg).get ⟨i, Nat.lt_of_succ_lt h⟩).stop +
        (if lunchAfter cfg (i + 1) then cfg.lunch_duration else cfg.break_length) := by
  have := slotsLoop_adjacent cfg (cfg.end_minutes + 1) cfg.start_minutes 1 i h
  rw [Nat.add_comm 1 i] at this
  exact this

/-- C8 witness: in the app's default grid with lunch after period 3, slot 4
starts 30 minutes (the lunch duration) after slot 3 ends, and slot 2 starts
10 minutes (the break) after slot 1 ends. -/
theorem grid_lunch_gaps_witness :
    (2 + 1 < (generate_time_slots ⟨480, 915, 50, 10, "After period 3", 30⟩).length ∧
      ((generate_time_slots ⟨480, 915, 50, 10, "After period 3", 30⟩).get
        ⟨3, by decide⟩).start = 680) ∧
    ((generate_time_slots ⟨480, 915, 50, 10, "After period 3", 30⟩).get
        ⟨3, by decide⟩).start =
      ((generate_time_slots ⟨480, 915, 50, 10, "After period 3", 30⟩).get
        ⟨2, by decide⟩).stop +
        (if lunchAfter ⟨480, 915, 50, 10, "After period 3", 30⟩ 3 then 30 else 10) := by
  refine ⟨by decide, ?_⟩
  exact grid_lunch_gaps ⟨480, 915, 50, 10, "After period 3", 30⟩ 2 (by decide)

/-! ## The commit operation and the availability check -/

theorem is_slot_available_iff (st : SState) (cn tn rn d : String) (t : Slot) :
    is_slot_available st cn tn rn d t = true ↔
      st.class_schedule cn d t = none ∧ st.teacher_schedule tn d t = none ∧
        st.room_schedule rn d t = none := by
  cases hc : st.class_schedule cn d t with
  | some a => simp [is_slot_available, hc]
  | none =>
    cases ht : st.teacher_schedule tn d t with
    | some a => simp [is_slot_available, hc, ht]
    | none =>
      cases hr : st.room_schedule rn d t with
      | some a => simp [is_slot_available, hc, ht, hr]
      | none => simp [is_slot_available, hc, ht, hr]

/-- C9 counterexample: `_assign_time_slot` does not fail on an occupied cell
and does not leave the ledgers unchanged.  Committing twice into the same
(class, day, slot) cell silently overwrites the first assignment with the
second — no `AlreadyOccupiedError` exists anywhere in the code. -/
theorem c9_no_already_occupied_error :
    (assign_time_slot initState ⟨"Math", "T", "C", 1⟩ "C" "T" "R" "Monday"
        ⟨480, 530⟩).class_schedule "C" "Monday" ⟨480, 530⟩ =
      some ⟨"Math", "T", "R", "C", "Monday", ⟨480, 530⟩⟩ ∧
    (assign_time_slot
        (assign_time_slot initState ⟨"Math", "T", "C", 1⟩ "C" "T" "R" "Monday" ⟨480, 530⟩)
        ⟨"Physics", "T", "C", 1⟩ "C" "T" "R" "Monday"
        ⟨480, 530⟩).class_schedule "C" "Monday" ⟨480, 530⟩ =
      some ⟨"Physics", "T", "R", "C", "Monday", ⟨480, 530⟩⟩ ∧
    (⟨"Physics", "T", "R", "C", "Monday", ⟨480, 530⟩⟩ : Assignment) ≠
      ⟨"Math", "T", "R", "C", "Monday", ⟨480, 530⟩⟩ := by
  decide

/-- C9 amended: the commit operation performs no freeness check and raises no
error: it unconditionally writes the assignment record into the targeted
class, teacher and room cells (overwriting any occupant) and leaves every
other cell of the three ledgers unchanged.  Freeness is instead guaranteed by
the engine, which calls `_is_slot_available` before every commit. -/
theorem c9_assign_overwrites (st : SState) (course : Course)
    (cn tn rn d : String) (t : Slot) :
    (assign_time_slot st course cn tn rn d t).class_schedule cn d t =
      some ⟨course.name, tn, rn, cn, d, t⟩ ∧
    (assign_time_slot st course cn tn rn d t).teacher_schedule tn d t =
      some ⟨course.name, tn, rn, cn, d, t⟩ ∧
    (assign_time_slot st course cn tn rn d t).room_schedule rn d t =
      some ⟨course.name, tn, rn, cn, d, t⟩ ∧
    (∀ c' d' t', ¬(c' = cn ∧ d' = d ∧ t' = t) →
      (assign_time_slot st course cn tn rn d t).class_schedule c' d' t' =
        st.class_schedule c' d' t') ∧
    (∀ n' d' t', ¬(n' = tn ∧ d' = d ∧ t' = t) →
      (assign_time_slot st course cn tn rn d t).teacher_schedule n' d' t' =
        st.teacher_schedule n' d' t') ∧
    (∀ n' d' t', ¬(n' = rn ∧ d' = d ∧ t' = t) →
      (assign_time_slot st course cn tn rn d t).room_schedule n' d' t' =
        st.room_schedule n' d' t') := by
  refine ⟨?_, ?_, ?_, ?_, ?_, ?_⟩
  · simp [assign_time_slot, writeCell]
  · simp [assign_time_slot, writeCell]
  · simp [assign_time_slot, writeCell]
  · intro c' d' t' hne
    simp only [assign_time_slot, writeCell]
    rw [if_neg hne]
  · intro n' d' t' hne
    simp only [assign_time_slot, writeCell]
    rw [if_neg hne]
  · intro n' d' t' hne
    simp only [assign_time_slot, writeCell]
    rw [if_neg hne]

/-- C9 amended witness: the overwrite equations evaluated at one concrete
commit. -/
theorem c9_assign_overwrites_witness :
    ¬(("D" : String) = "C" ∧ ("Monday" : String) = "Monday" ∧
        (⟨480, 530⟩ : Slot) = ⟨480, 530⟩) ∧
    (assign_time_slot initState ⟨"Math", "T", "C", 1⟩ "C" "T" "R" "Monday"
        ⟨480, 530⟩).class_schedule "C" "Monday" ⟨480, 530⟩ =
      some ⟨"Math", "T", "R", "C", "Monday", ⟨480, 530⟩⟩ ∧
    (assign_time_slot initState ⟨"Math", "T", "C", 1⟩ "C" "T" "R" "Monday"
        ⟨480, 530⟩).class_schedule "D" "Monday" ⟨480, 530⟩ =
      initState.class_schedule "D" "Monday" ⟨480, 530⟩ :=
  ⟨by decide,
    (c9_assign_overwrites initState ⟨"Math", "T", "C", 1⟩ "C" "T" "R" "Monday"
      ⟨480, 530⟩).1,
    (c9_assign_overwrites initState ⟨"Math", "T", "C", 1⟩ "C" "T" "R" "Monday"
      ⟨480, 530⟩).2.2.2.1 "D" "Monday" ⟨480, 530⟩ (by decide)⟩

/-! ## The weekday-avoidance skip rule -/

theorem insertDay_length_le (day : String) (assigned_days : List String) :
    assigned_days.length ≤ (insertDay day assigned_days).length := by
  unfold insertDay
  by_cases h : day ∈ assigned_days
  · rw [if_pos h]
  · rw [if_neg h]
    exact Nat.le_succ _

theorem run_sessions_days_mono (g : Shuffle) (dl : List String) (ts : List Slot)
    (rooms : List Room) (course : Course) (csize : Nat) :
    ∀ (n : Nat) (ad : List String) (st : SState),
      ad.length ≤ (run_sessions g dl ts rooms course csize n ad st).2.1.length := by
  intro n
  induction n with
  | zero => intro ad st; exact Nat.le_refl _
  | succ m ih =>
    intro ad st
    rw [run_sessions]
    cases hres : try_days g rooms ts course.cls course.teacher csize ad dl.length
        { st with pos := st.pos + 1 } (g String st.pos dl) with
    | mk o st2 =>
      cases o with
      | none => exact ih ad st2
      | some v =>
        rcases v with ⟨day, room_name, time_slot⟩
        exact Nat.le_trans (insertDay_length_le day ad) (ih _ _)

/-- C5: during the per-session day search a candidate day is skipped exactly
when the course already used that day *and* the used-day count is still below
the number of weekdays; the test reads the current `assigned_days`, so it is
re-evaluated at every candidate (the first conjunct characterises the loop
step as this exact if-then-else).  The used-day set never shrinks during a
course's session loop (second conjunct), so once its size reaches the number
of weekdays the else-branch — in which previously used days are attempted
like any other day — is taken at every subsequent candidate. -/
theorem day_skip_rule (g : Shuffle) (rooms : List Room) (time_slots : List Slot)
    (class_name teacher_name : String) (class_size : Nat)
    (assigned_days : List String) (ndays : Nat) (st : SState)
    (day : String) (rest : List String)
    (dl : List String) (course : Course) (n : Nat) :
    (try_days g rooms time_slots class_name teacher_name class_size
        assigned_days ndays st (day :: rest) =
      if day ∈ assigned_days ∧ assigned_days.length < ndays then
        try_days g rooms time_slots class_name teacher_name class_size
          assigned_days ndays st rest
      else
        match try_slots g rooms class_name teacher_name class_size day
            { st with pos := st.pos + 1 } (g Slot st.pos time_slots) with
        | (some (room_name, time_slot), st2) => (some (day, room_name, time_slot), st2)
        | (none, st2) =>
          try_days g rooms time_slots class_name teacher_name class_size
            assigned_days ndays st2 rest) ∧
    assigned_days.length ≤
      (run_sessions g dl time_slots rooms course class_size n assigned_days st).2.1.length := by
  constructor
  · rw [try_days]
  · exact run_sessions_days_mono g dl time_slots rooms course class_size n assigned_days st

/-! ## The commit-discipline invariant -/

/-- Every occupied class cell records its own key in the assignment's fields
and is mirrored in the teacher and room ledgers — exactly what writing all
three ledgers only after `_is_slot_available` maintains. -/
def CoreInv (st : SState) : Prop :=
  ∀ c d t a, st.class_schedule c d t = some a →
    a.cls = c ∧ a.day = d ∧ a.time = t ∧
    st.teacher_schedule a.teacher d t = some a ∧
    st.room_schedule a.room d t = some a

theorem coreInv_init : CoreInv initState := by
  intro c d t a h
  simp [initState] at h

theorem coreInv_congr (st st' : SState)
    (hc : st'.class_schedule = st.class_schedule)
    (ht : st'.teacher_schedule = st.teacher_schedule)
    (hr : st'.room_schedule = st.room_schedule) (h : CoreInv st) : CoreInv st' := by
  intro c d t a hcell
  rw [hc] at hcell
  rcases h c d t a hcell with ⟨h1, h2, h3, h4, h5⟩
  exact ⟨h1, h2, h3, by rw [ht]; exact h4, by rw [hr]; exact h5⟩

theorem coreInv_assign (st : SState) (course : Course) (cn tn rn d : String) (t : Slot)
    (hfree : is_slot_available st cn tn rn d t = true) (h : CoreInv st) :
    CoreInv (assign_time_slot st course cn tn rn d t) := by
  rcases (is_slot_available_iff st cn tn rn d t).1 hfree with ⟨hcs, hts, hrs⟩
  intro c' d' t' a hcell
  simp only [assign_time_slot, writeCell] at hcell ⊢
  by_cases hkey : c' = cn ∧ d' = d ∧ t' = t
  · rw [if_pos hkey] at hcell
    rcases hkey with ⟨hk1, hk2, hk3⟩
    have ha : a = ⟨course.name, tn, rn, cn, d, t⟩ := by
      cases hcell; rfl
    subst ha hk1 hk2 hk3
    refine ⟨rfl, rfl, rfl, ?_, ?_⟩
    · rw [if_pos ⟨rfl, rfl, rfl⟩]
    · rw [if_pos ⟨rfl, rfl, rfl⟩]
  · rw [if_neg hkey] at hcell
    rcases h c' d' t' a hcell with ⟨h1, h2, h3, h4, h5⟩
    refine ⟨h1, h2, h3, ?_, ?_⟩
    · by_cases hk2 : a.teacher = tn ∧ d' = d ∧ t' = t
      · exfalso
        rcases hk2 with ⟨hb1, hb2, hb3⟩
        rw [hb1, hb2, hb3] at h4
        rw [h4] at hts
        exact Option.noConfusion hts
      · rw [if_neg hk2]
        exact h4
    · by_cases hk3 : a.room = rn ∧ d' = d ∧ t' = t
      · exfalso
        rcases hk3 with ⟨hb1, hb2, hb3⟩
        rw [hb1, hb2, hb3] at h5
        rw [h5] at hrs
        exact Option.noConfusion hrs
      · rw [if_neg hk3]
        exact h5

/-! ## The search loops only read the ledgers until they commit -/

theorem firstFreeRoom_mem (st : SState) (d : String) (t : Slot) :
    ∀ (l : List Room) (rn : String), firstFreeRoom st d t l = some rn →
      ∃ room ∈ l, room.name = rn ∧ st.room_schedule rn d t = none := by
  intro l
  induction l with
  | nil => intro rn h; exact Option.noConfusion h
  | cons room rest ih =>
    intro rn h
    rw [firstFreeRoom] at h
    by_cases hfree : (st.room_schedule room.name d t).isNone
    · rw [if_pos hfree] at h
      cases h
      exact ⟨room, List.mem_cons_self _ _, rfl, Option.isNone_iff_eq_none.1 hfree⟩
    · rw [if_neg hfree] at h
      rcases ih rn h with ⟨r, hr1, hr2, hr3⟩
      exact ⟨r, List.mem_cons_of_mem _ hr1, hr2, hr3⟩

theorem try_slots_state (g : Shuffle) (rooms : List Room) (cn tn : String)
    (csize : Nat) (d : String) :
    ∀ (l : List Slot) (st : SState),
      (try_slots g rooms cn tn csize d st l).2.class_schedule = st.class_schedule ∧
      (try_slots g rooms cn tn csize d st l).2.teacher_schedule = st.teacher_schedule ∧
      (try_slots g rooms cn tn csize d st l).2.room_schedule = st.room_schedule := by
  intro l
  induction l with
  | nil => intro st; exact ⟨rfl, rfl, rfl⟩
  | cons time_slot rest ih =>
    intro st
    rw [try_slots]
    simp only [find_available_room]
    cases hff : firstFreeRoom st d time_slot
        (g Room st.pos (rooms.filter (fun room => decide (csize ≤ room.capacity)))) with
    | none => dsimp only; exact ih _
    | some room_name =>
      dsimp only
      by_cases hav : is_slot_available { st with pos := st.pos + 1 } cn tn room_name d time_slot = true
      · rw [if_pos hav]
        exact ⟨rfl, rfl, rfl⟩
      · rw [if_neg hav]
        exact ih _

theorem try_slots_success (g : Shuffle) (rooms : List Room) (cn tn : String)
    (csize : Nat) (d : String) :
    ∀ (l : List Slot) (st : SState) (rn : String) (t : Slot) (st' : SState),
      try_slots g rooms cn tn csize d st l = (some (rn, t), st') →
      st'.class_schedule = st.class_schedule ∧
      st'.teacher_schedule = st.teacher_schedule ∧
      st'.room_schedule = st.room_schedule ∧
      is_slot_available st cn tn rn d t = true ∧
      t ∈ l ∧
      (PermFair g → ∃ room ∈ rooms, room.name = rn ∧ csize ≤ room.capacity) := by
  intro l
  induction l with
  | nil =>
    intro st rn t st' h
    rw [try_slots] at h
    exact Prod.noConfusion h (fun h1 _ => Option.noConfusion h1)
  | cons time_slot rest ih =>
    intro st rn t st' h
    rw [try_slots] at h
    simp only [find_available_room] at h
    cases hff : firstFreeRoom st d time_slot
        (g Room st.pos (rooms.filter (fun room => decide (csize ≤ room.capacity)))) with
    | none =>
      rw [hff] at h
      dsimp only at h
      rcases ih _ rn t st' h with ⟨h1, h2, h3, h4, h5, h6⟩
      exact ⟨h1, h2, h3, h4, List.mem_cons_of_mem _ h5, h6⟩
    | some room_name =>
      rw [hff] at h
      dsimp only at h
      by_cases hav : is_slot_available { st with pos := st.pos + 1 } cn tn room_name d time_slot = true
      · rw [if_pos hav] at h
        have hfst := congrArg Prod.fst h
        have hsnd := congrArg Prod.snd h
        dsimp only at hfst hsnd
        injection hfst with hfst
        injection hfst with hrn hts
        subst hrn hts
        rw [← hsnd]
        refine ⟨rfl, rfl, rfl, hav, List.mem_cons_self _ _, ?_⟩
        intro hperm
        rcases firstFreeRoom_mem st d time_slot _ _ hff with ⟨room, hmem, hname, _⟩
        have hmem2 : room ∈ rooms.filter (fun room => decide (csize ≤ room.capacity)) :=
          ((hperm Room st.pos _).mem_iff).1 hmem
        rcases List.mem_filter.1 hmem2 with ⟨hmem3, hcap⟩
        exact ⟨room, hmem3, hname, of_decide_eq_true hcap⟩
      · rw [if_neg hav] at h
        rcases ih _ rn t st' h with ⟨h1, h2, h3, h4, h5, h6⟩
        exact ⟨h1, h2, h3, h4, List.mem_cons_of_mem _ h5, h6⟩

theorem is_slot_available_congr (st st' : SState) (cn tn rn d : String) (t : Slot)
    (hc : st'.class_schedule = st.class_schedule)
    (ht : st'.teacher_schedule = st.teacher_schedule)
    (hr : st'.room_schedule = st.room_schedule) :
    is_slot_available st' cn tn rn d t = is_slot_available st cn tn rn d t := by
  unfold is_slot_available
  rw [hc, ht, hr]

theorem try_days_state (g : Shuffle) (rooms : List Room) (ts : List Slot)
    (cn tn : String) (csize : Nat) (ad : List String) (ndays : Nat) :
    ∀ (cands : List String) (st : SState),
      (try_days g rooms ts cn tn csize ad ndays st cands).2.class_schedule = st.class_schedule ∧
      (try_days g rooms ts cn tn csize ad ndays st cands).2.teacher_schedule = st.teacher_schedule ∧
      (try_days g rooms ts cn tn csize ad ndays st cands).2.room_schedule = st.room_schedule := by
  intro cands
  induction cands with
  | nil => intro st; exact ⟨rfl, rfl, rfl⟩
  | cons day rest ih =>
    intro st
    rw [try_days]
    by_cases hskip : day ∈ ad ∧ ad.length < ndays
    · rw [if_pos hskip]
      exact ih st
    · rw [if_neg hskip]
      dsimp only
      split
      next room_name time_slot st2 hres =>
        have hst2 := try_slots_state g rooms cn tn csize day (g Slot st.pos ts)
          { st with pos := st.pos + 1 }
        rw [hres] at hst2
        dsimp only at hst2 ⊢
        exact hst2
      next st2 hres =>
        have hst2 := try_slots_state g rooms cn tn csize day (g Slot st.pos ts)
          { st with pos := st.pos + 1 }
        rw [hres] at hst2
        dsimp only at hst2 ⊢
        rcases ih st2 with ⟨i1, i2, i3⟩
        rcases hst2 with ⟨s1, s2, s3⟩
        exact ⟨by rw [i1, s1], by rw [i2, s2], by rw [i3, s3]⟩

theorem try_days_success (g : Shuffle) (rooms : List Room) (ts : List Slot)
    (cn tn : String) (csize : Nat) (ad : List String) (ndays : Nat) :
    ∀ (cands : List String) (st : SState) (d rn : String) (t : Slot) (st' : SState),
      try_days g rooms ts cn tn csize ad ndays st cands = (some (d, rn, t), st') →
      st'.class_schedule = st.class_schedule ∧
      st'.teacher_schedule = st.teacher_schedule ∧
      st'.room_schedule = st.room_schedule ∧
      is_slot_available st cn tn rn d t = true ∧
      d ∈ cands ∧
      (PermFair g → t ∈ ts) ∧
      (PermFair g → ∃ room ∈ rooms, room.name = rn ∧ csize ≤ room.capacity) := by
  intro cands
  induction cands with
  | nil =>
    intro st d rn t st' h
    rw [try_days] at h
    exact Prod.noConfusion h (fun h1 _ => Option.noConfusion h1)
  | cons day rest ih =>
    intro st d rn t st' h
    rw [try_days] at h
    by_cases hskip : day ∈ ad ∧ ad.length < ndays
    · rw [if_pos hskip] at h
      rcases ih st d rn t st' h with ⟨h1, h2, h3, h4, h5, h6, h7⟩
      exact ⟨h1, h2, h3, h4, List.mem_cons_of_mem _ h5, h6, h7⟩
    · rw [if_neg hskip] at h
      dsimp only at h
      cases hres : try_slots g rooms cn tn csize day { st with pos := st.pos + 1 }
          (g Slot st.pos ts) with
      | mk o st2 =>
        rw [hres] at h
        cases o with
        | some v =>
          rcases v with ⟨room_name, time_slot⟩
          dsimp only at h
          have hd : day = d ∧ room_name = rn ∧ time_slot = t ∧ st2 = st' := by
            cases h
            exact ⟨rfl, rfl, rfl, rfl⟩
          rcases hd with ⟨hd, hrn, hts2, hst2⟩
          subst hd hrn hts2 hst2
          rcases try_slots_success g rooms cn tn csize day (g Slot st.pos ts)
              { st with pos := st.pos + 1 } room_name time_slot st2 hres with
            ⟨s1, s2, s3, s4, s5, s6⟩
          refine ⟨s1, s2, s3, s4, List.mem_cons_self _ _, ?_, s6⟩
          intro hperm
          exact ((hperm Slot st.pos ts).mem_iff).1 s5
        | none =>
          dsimp only at h
          rcases ih st2 d rn t st' h with ⟨h1, h2, h3, h4, h5, h6, h7⟩
          have hst2 := try_slots_state g rooms cn tn csize day (g Slot st.pos ts)
            { st with pos := st.pos + 1 }
          rw [hres] at hst2
          dsimp only at hst2
          rcases hst2 with ⟨s1, s2, s3⟩
          refine ⟨by rw [h1, s1], by rw [h2, s2], by rw [h3, s3], ?_,
            List.mem_cons_of_mem _ h5, h6, h7⟩
          rw [is_slot_available_congr st st2 cn tn rn d t s1 s2 s3] at h4
          exact h4

theorem run_sessions_coreInv (g : Shuffle) (dl : List String) (ts : List Slot)
    (rooms : List Room) (course : Course) (csize : Nat) :
    ∀ (n : Nat) (ad : List String) (st : SState), CoreInv st →
      CoreInv (run_sessions g dl ts rooms course csize n ad st).1 := by
  intro n
  induction n with
  | zero => intro ad st h; exact h
  | succ m ih =>
    intro ad st h
    rw [run_sessions]
    dsimp only
    split
    next day room_name time_slot st2 hres =>
      rcases try_days_success g rooms ts course.cls course.teacher csize ad dl.length
          (g String st.pos dl) { st with pos := st.pos + 1 } day room_name time_slot st2
          hres with ⟨s1, s2, s3, s4, _, _, _⟩
      have hinv2 : CoreInv st2 :=
        coreInv_congr { st with pos := st.pos + 1 } st2 s1 s2 s3 h
      have hav : is_slot_available st2 course.cls course.teacher room_name day time_slot
          = true := by
        rw [is_slot_available_congr { st with pos := st.pos + 1 } st2 course.cls
          course.teacher room_name day time_slot s1 s2 s3]
        exact s4
      exact ih _ _ (coreInv_assign st2 course course.cls course.teacher room_name day
        time_slot hav hinv2)
    next st2 hres =>
      have hst2 := try_days_state g rooms ts course.cls course.teacher csize ad dl.length
        (g String st.pos dl) { st with pos := st.pos + 1 }
      rw [hres] at hst2
      dsimp only at hst2
      rcases hst2 with ⟨s1, s2, s3⟩
      exact ih _ _ (coreInv_congr { st with pos := st.pos + 1 } st2 s1 s2 s3 h)

theorem run_courses_coreInv (g : Shuffle) (dl : List String) (ts : List Slot)
    (rooms : List Room) (classes : List SchoolClass) :
    ∀ (cs : List Course) (counts : SessionCounts) (st : SState), CoreInv st →
      CoreInv (run_courses g dl ts rooms classes cs counts st).1 := by
  intro cs
  induction cs with
  | nil => intro counts st h; exact h
  | cons course rest ih =>
    intro counts st h
    rw [run_courses]
    exact ih _ _ (run_sessions_coreInv g dl ts rooms course
      (get_class_size classes course.cls) course.frequency [] st h)

theorem generate_core_coreInv (g : Shuffle) (inp : ScheduleInput) (ts : List Slot) :
    CoreInv (generate_core g inp ts).1 :=
  run_courses_coreInv g days ts inp.rooms inp.classes (sortCourses inp.courses)
    (fun _ => 0) initState coreInv_init

/-! ## Dict-key iteration facts -/

theorem mem_uniqueKeysAux {α : Type} [DecidableEq α] :
    ∀ (l seen : List α) (x : α), x ∈ uniqueKeysAux seen l ↔ x ∈ l ∧ x ∉ seen := by
  intro l
  induction l with
  | nil => intro seen x; simp [uniqueKeysAux]
  | cons y ys ih =>
    intro seen x
    rw [uniqueKeysAux]
    by_cases hy : y ∈ seen
    · rw [if_pos hy, ih]
      constructor
      · rintro ⟨hx, hns⟩
        exact ⟨List.mem_cons_of_mem _ hx, hns⟩
      · rintro ⟨hx, hns⟩
        rcases List.mem_cons.mp hx with rfl | hx
        · exact absurd hy hns
        · exact ⟨hx, hns⟩
    · rw [if_neg hy]
      constructor
      · intro hx
        rcases List.mem_cons.mp hx with rfl | hx
        · exact ⟨List.mem_cons_self _ _, hy⟩
        · rcases (ih (y :: seen) x).1 hx with ⟨h1, h2⟩
          refine ⟨List.mem_cons_of_mem _ h1, fun hc => h2 (List.mem_cons_of_mem _ hc)⟩
      · rintro ⟨hx, hns⟩
        rcases List.mem_cons.mp hx with rfl | hx
        · exact List.mem_cons_self _ _
        · by_cases hxy : x = y
          · subst hxy; exact List.mem_cons_self _ _
          · refine List.mem_cons_of_mem _ ((ih (y :: seen) x).2 ⟨hx, ?_⟩)
            intro hc
            rcases List.mem_cons.mp hc with h | h
            · exact hxy h
            · exact hns h

theorem uniqueKeysAux_nodup {α : Type} [DecidableEq α] :
    ∀ (l seen : List α), (uniqueKeysAux seen l).Nodup := by
  intro l
  induction l with
  | nil => intro seen; simp [uniqueKeysAux]
  | cons y ys ih =>
    intro seen
    rw [uniqueKeysAux]
    by_cases hy : y ∈ seen
    · rw [if_pos hy]; exact ih seen
    · rw [if_neg hy]
      refine List.Nodup.cons ?_ (ih (y :: seen))
      intro hc
      exact ((mem_uniqueKeysAux ys (y :: seen) y).1 hc).2 (List.mem_cons_self _ _)

theorem uniqueKeys_nodup {α : Type} [DecidableEq α] (l : List α) : (uniqueKeys l).Nodup :=
  uniqueKeysAux_nodup l []

theorem mem_uniqueKeys {α : Type} [DecidableEq α] (l : List α) (x : α) :
    x ∈ uniqueKeys l ↔ x ∈ l := by
  rw [uniqueKeys, mem_uniqueKeysAux]
  simp

/-! ## The audit scans are vacuous under the commit discipline -/

theorem filter_length_le_one {α : Type} (p : α → Bool) :
    ∀ (l : List α), l.Nodup →
      (∀ x ∈ l, ∀ y ∈ l, p x = true → p y = true → x = y) →
      (l.filter p).length ≤ 1 := by
  intro l
  induction l with
  | nil => intro _ _; simp
  | cons a as ih =>
    intro hnd huniq
    rcases List.nodup_cons.1 hnd with ⟨hna, hnd'⟩
    cases hpa : p a with
    | true =>
      rw [List.filter_cons_of_pos hpa]
      have hnil : as.filter p = [] := by
        rw [List.filter_eq_nil_iff]
        intro y hy hpy
        have := huniq y (List.mem_cons_of_mem _ hy) a (List.mem_cons_self _ _) hpy hpa
        exact hna (this ▸ hy)
      rw [hnil]
      exact Nat.le_refl _
    | false =>
      rw [List.filter_cons_of_neg (by rw [hpa]; exact Bool.false_ne_true)]
      exact ih hnd' (fun x hx y hy => huniq x (List.mem_cons_of_mem _ hx) y
        (List.mem_cons_of_mem _ hy))

theorem classes_at_time_length_le_one (st : SState) (view : Ledger)
    (f : Assignment → String) (classKeys : List String) (d : String) (t : Slot)
    (nm : String) (hnd : classKeys.Nodup)
    (hview : ∀ c a, st.class_schedule c d t = some a →
      a.cls = c ∧ view (f a) d t = some a) :
    (classes_at_time st classKeys d t f nm).length ≤ 1 := by
  apply filter_length_le_one _ _ hnd
  intro x hx y hy hpx hpy
  have hpx' := of_decide_eq_true hpx
  have hpy' := of_decide_eq_true hpy
  rcases Option.map_eq_some'.1 hpx' with ⟨ax, hax, hfx⟩
  rcases Option.map_eq_some'.1 hpy' with ⟨ay, hay, hfy⟩
  rcases hview x ax hax with ⟨hcx, hvx⟩
  rcases hview y ay hay with ⟨hcy, hvy⟩
  rw [hfx] at hvx
  rw [hfy] at hvy
  rw [hvx] at hvy
  have hxy : ax = ay := Option.some_injective _ hvy
  rw [← hcx, ← hcy, hxy]

theorem teacherConflicts_eq_nil (st : SState) (tk ck dl : List String) (ts : List Slot)
    (hnd : ck.Nodup) (hinv : CoreInv st) :
    teacherConflicts st tk ck dl ts = [] := by
  unfold teacherConflicts
  rw [List.flatMap_eq_nil_iff]
  intro tn _
  rw [List.flatMap_eq_nil_iff]
  intro d _
  rw [List.flatMap_eq_nil_iff]
  intro t _
  have hle := classes_at_time_length_le_one st st.teacher_schedule Assignment.teacher
    ck d t tn hnd (fun c a hc => ⟨(hinv c d t a hc).1, (hinv c d t a hc).2.2.2.1⟩)
  dsimp only
  rw [if_neg (Nat.not_lt.mpr hle)]

theorem roomConflicts_eq_nil (st : SState) (rk ck dl : List String) (ts : List Slot)
    (hnd : ck.Nodup) (hinv : CoreInv st) :
    roomConflicts st rk ck dl ts = [] := by
  unfold roomConflicts
  rw [List.flatMap_eq_nil_iff]
  intro rn _
  rw [List.flatMap_eq_nil_iff]
  intro d _
  rw [List.flatMap_eq_nil_iff]
  intro t _
  have hle := classes_at_time_length_le_one st st.room_schedule Assignment.room
    ck d t rn hnd (fun c a hc => ⟨(hinv c d t a hc).1, (hinv c d t a hc).2.2.2.2⟩)
  dsimp only
  rw [if_neg (Nat.not_lt.mpr hle)]

/-! ## The collected schedule -/

theorem mem_collectSchedule (st : SState) (ck dl : List String) (ts : List Slot)
    (a : Assignment) :
    a ∈ collectSchedule st ck dl ts ↔
      ∃ c ∈ ck, ∃ d ∈ dl, ∃ t ∈ ts, st.class_schedule c d t = some a := by
  simp [collectSchedule, List.mem_flatMap, List.mem_filterMap]

theorem collectSchedule_nodup (st : SState) (ck dl : List String) (ts : List Slot)
    (hinv : CoreInv st) (hck : ck.Nodup) (hdl : dl.Nodup) (hts : ts.Nodup) :
    (collectSchedule st ck dl ts).Nodup := by
  unfold collectSchedule
  rw [List.nodup_flatMap]
  constructor
  · intro c _
    rw [List.nodup_flatMap]
    constructor
    · intro d _
      refine List.Nodup.filterMap ?_ hts
      intro t t' a ha ha'
      have h1 := (hinv c d t a (Option.mem_def.1 ha)).2.2.1
      have h2 := (hinv c d t' a (Option.mem_def.1 ha')).2.2.1
      rw [← h1, ← h2]
    · refine hdl.imp ?_
      intro d d' hne a ha ha'
      rcases List.mem_filterMap.1 ha with ⟨t, _, hc⟩
      rcases List.mem_filterMap.1 ha' with ⟨t', _, hc'⟩
      have h1 := (hinv c d t a hc).2.1
      have h2 := (hinv c d' t' a hc').2.1
      exact hne (h1 ▸ h2)
  · refine hck.imp ?_
    intro c c' hne a ha ha'
    rcases List.mem_flatMap.1 ha with ⟨d, _, ha2⟩
    rcases List.mem_filterMap.1 ha2 with ⟨t, _, hc⟩
    rcases List.mem_flatMap.1 ha' with ⟨d', _, ha2'⟩
    rcases List.mem_filterMap.1 ha2' with ⟨t', _, hc'⟩
    have h1 := (hinv c d t a hc).1
    have h2 := (hinv c' d' t' a hc').1
    exact hne (h1 ▸ h2)

/-! ## The conflict records the engine itself appends -/

theorem run_sessions_conflicts (g : Shuffle) (dl : List String) (ts : List Slot)
    (rooms : List Room) (course : Course) (csize : Nat) :
    ∀ (n : Nat) (ad : List String) (st : SState),
      ∀ r ∈ (run_sessions g dl ts rooms course csize n ad st).2.2.2,
        r = unscheduledConflict course := by
  intro n
  induction n with
  | zero => intro ad st r hr; simp [run_sessions] at hr
  | succ m ih =>
    intro ad st r hr
    rw [run_sessions] at hr
    dsimp only at hr
    revert hr
    split
    next day room_name time_slot st2 _ =>
      intro hr
      exact ih _ _ r hr
    next st2 _ =>
      intro hr
      rcases List.mem_cons.mp hr with rfl | hr
      · rfl
      · exact ih _ _ r hr

theorem run_courses_conflicts (g : Shuffle) (dl : List String) (ts : List Slot)
    (rooms : List Room) (classes : List SchoolClass) :
    ∀ (cs : List Course) (counts : SessionCounts) (st : SState),
      ∀ r ∈ (run_courses g dl ts rooms classes cs counts st).2.2,
        ∃ c ∈ cs, r = unscheduledConflict c := by
  intro cs
  induction cs with
  | nil => intro counts st r hr; simp [run_courses] at hr
  | cons course rest ih =>
    intro counts st r hr
    rw [run_courses] at hr
    dsimp only at hr
    rcases List.mem_append.1 hr with hr | hr
    · exact ⟨course, List.mem_cons_self _ _,
        run_sessions_conflicts g dl ts rooms course _ _ _ _ r hr⟩
    · rcases ih _ _ r hr with ⟨c, hc, he⟩
      exact ⟨c, List.mem_cons_of_mem _ hc, he⟩

theorem frequencyConflicts_types (courses : List Course) (counts : SessionCounts) :
    ∀ r ∈ frequencyConflicts courses counts, r.type = "Frequency Not Met" := by
  intro r hr
  unfold frequencyConflicts at hr
  rcases List.mem_flatMap.1 hr with ⟨key, _, hmem⟩
  dsimp only at hmem
  by_cases hc : counts key < requiredSessions courses key
  · rw [if_pos hc] at hmem
    rcases List.mem_singleton.1 hmem with rfl
    rfl
  · rw [if_neg hc] at hmem
    exact absurd hmem (List.not_mem_nil r)

/-- C1: every run of `generate_schedule` (over any permutation oracle and any
grid with a positive period length) yields a schedule in which, for a fixed
(day, slot), no two distinct assignments share a class, a teacher or a room;
and the teacher- and room-conflict scans of the same run emit zero records. -/
theorem schedule_conflict_free (g : Shuffle) (inp : ScheduleInput) (cfg : GridConfig)
    (hP : 0 < cfg.period_length) :
    (∀ a ∈ (generate_schedule_from_config g inp cfg).1,
      ∀ b ∈ (generate_schedule_from_config g inp cfg).1,
        a.day = b.day → a.time = b.time →
        (a.cls = b.cls ∨ a.teacher = b.teacher ∨ a.room = b.room) → a = b) ∧
    (generate_schedule_from_config g inp cfg).1.Nodup ∧
    ((generate_schedule_from_config g inp cfg).2.countP
      (fun r => decide (r.type = "Teacher Conflict")) = 0) ∧
    ((generate_schedule_from_config g inp cfg).2.countP
      (fun r => decide (r.type = "Room Conflict")) = 0) := by
  have hinv : CoreInv (generate_core g inp (generate_time_slots cfg)).1 :=
    generate_core_coreInv g inp (generate_time_slots cfg)
  have hck : (uniqueKeys (inp.classes.map SchoolClass.name)).Nodup := uniqueKeys_nodup _
  have hsch : (generate_schedule_from_config g inp cfg).1 =
      collectSchedule (generate_core g inp (generate_time_slots cfg)).1
        (uniqueKeys (inp.classes.map SchoolClass.name)) days (generate_time_slots cfg) := rfl
  have hcf : (generate_schedule_from_config g inp cfg).2 =
      (generate_core g inp (generate_time_slots cfg)).2.2
        ++ teacherConflicts (generate_core g inp (generate_time_slots cfg)).1
            (uniqueKeys (inp.teachers.map Teacher.name))
            (uniqueKeys (inp.classes.map SchoolClass.name)) days (generate_time_slots cfg)
        ++ roomConflicts (generate_core g inp (generate_time_slots cfg)).1
            (uniqueKeys (inp.rooms.map Room.name))
            (uniqueKeys (inp.classes.map SchoolClass.name)) days (generate_time_slots cfg)
        ++ frequencyConflicts inp.courses (generate_core g inp (generate_time_slots cfg)).2.1 := rfl
  refine ⟨?_, ?_, ?_, ?_⟩
  · intro a ha b hb hday htime hshare
    rw [hsch, mem_collectSchedule] at ha hb
    rcases ha with ⟨ca, _, da, _, ta, _, hcell_a⟩
    rcases hb with ⟨cb, _, db, _, tb, _, hcell_b⟩
    rcases hinv ca da ta a hcell_a with ⟨ha1, ha2, ha3, ha4, ha5⟩
    rcases hinv cb db tb b hcell_b with ⟨hb1, hb2, hb3, hb4, hb5⟩
    have hdd : da = db := by rw [← ha2, ← hb2, hday]
    have htt : ta = tb := by rw [← ha3, ← hb3, htime]
    rcases hshare with hs | hs | hs
    · have hcc : ca = cb := by rw [← ha1, ← hb1, hs]
      rw [hcc, hdd, htt] at hcell_a
      rw [hcell_a] at hcell_b
      exact Option.some_injective _ hcell_b
    · rw [hs, hdd, htt] at ha4
      rw [ha4] at hb4
      exact Option.some_injective _ hb4
    · rw [hs, hdd, htt] at ha5
      rw [ha5] at hb5
      exact Option.some_injective _ hb5
  · rw [hsch]
    exact collectSchedule_nodup _ _ _ _ hinv hck (by decide)
      (generate_time_slots_nodup cfg hP)
  · rw [hcf]
    rw [teacherConflicts_eq_nil _ _ _ _ _ hck hinv,
      roomConflicts_eq_nil _ _ _ _ _ hck hinv]
    simp only [List.append_nil, List.countP_append]
    have h1 : ((generate_core g inp (generate_time_slots cfg)).2.2).countP
        (fun r => decide (r.type = "Teacher Conflict")) = 0 := by
      rw [List.countP_eq_zero]
      intro r hr
      rcases run_courses_conflicts g days (generate_time_slots cfg) inp.rooms inp.classes
        (sortCourses inp.courses) (fun _ => 0) initState r hr with ⟨c, _, rfl⟩
      rw [decide_eq_true_eq]
      show ¬("Unscheduled Session" = "Teacher Conflict")
      decide
    have h2 : (frequencyConflicts inp.courses
        (generate_core g inp (generate_time_slots cfg)).2.1).countP
        (fun r => decide (r.type = "Teacher Conflict")) = 0 := by
      rw [List.countP_eq_zero]
      intro r hr
      have := frequencyConflicts_types inp.courses _ r hr
      rw [decide_eq_true_eq, this]
      decide
    rw [h1, h2]
  · rw [hcf]
    rw [teacherConflicts_eq_nil _ _ _ _ _ hck hinv,
      roomConflicts_eq_nil _ _ _ _ _ hck hinv]
    simp only [List.append_nil, List.countP_append]
    have h1 : ((generate_core g inp (generate_time_slots cfg)).2.2).countP
        (fun r => decide (r.type = "Room Conflict")) = 0 := by
      rw [List.countP_eq_zero]
      intro r hr
      rcases run_courses_conflicts g days (generate_time_slots cfg) inp.rooms inp.classes
        (sortCourses inp.courses) (fun _ => 0) initState r hr with ⟨c, _, rfl⟩
      rw [decide_eq_true_eq]
      show ¬("Unscheduled Session" = "Room Conflict")
      decide
    have h2 : (frequencyConflicts inp.courses
        (generate_core g inp (generate_time_slots cfg)).2.1).countP
        (fun r => decide (r.type = "Room Conflict")) = 0 := by
      rw [List.countP_eq_zero]
      intro r hr
      have := frequencyConflicts_types inp.courses _ r hr
      rw [decide_eq_true_eq, this]
      decide
    rw [h1, h2]

/-- C1 witness: the invariants evaluated on a concrete run (one teacher, one
room, one class, one two-session course, default grid). -/
theorem schedule_conflict_free_witness :
    0 < (⟨480, 915, 50, 10, "After period 3", 30⟩ : GridConfig).period_length ∧
    ((generate_schedule_from_config idShuffle
        ⟨[⟨"T"⟩], [⟨"R", 30⟩], [⟨"C", 25⟩], [⟨"M", "T", "C", 2⟩]⟩
        ⟨480, 915, 50, 10, "After period 3", 30⟩).2.countP
      (fun r => decide (r.type = "Teacher Conflict")) = 0) ∧
    ((generate_schedule_from_config idShuffle
        ⟨[⟨"T"⟩], [⟨"R", 30⟩], [⟨"C", 25⟩], [⟨"M", "T", "C", 2⟩]⟩
        ⟨480, 915, 50, 10, "After period 3", 30⟩).2.countP
      (fun r => decide (r.type = "Room Conflict")) = 0) :=
  ⟨by decide,
    (schedule_conflict_free idShuffle
      ⟨[⟨"T"⟩], [⟨"R", 30⟩], [⟨"C", 25⟩], [⟨"M", "T", "C", 2⟩]⟩
      ⟨480, 915, 50, 10, "After period 3", 30⟩ (by decide)).2.2.1,
    (schedule_conflict_free idShuffle
      ⟨[⟨"T"⟩], [⟨"R", 30⟩], [⟨"C", 25⟩], [⟨"M", "T", "C", 2⟩]⟩
      ⟨480, 915, 50, 10, "After period 3", 30⟩ (by decide)).2.2.2⟩

/-! ## The room-capacity invariant -/

/-- Every occupied class cell names a room drawn from the capacity-filtered
room list of `_find_available_room`. -/
def RoomCapInv (rooms : List Room) (classes : List SchoolClass) (st : SState) : Prop :=
  ∀ c d t a, st.class_schedule c d t = some a →
    ∃ room ∈ rooms, room.name = a.room ∧ get_class_size classes a.cls ≤ room.capacity

theorem roomCapInv_init (rooms : List Room) (classes : List SchoolClass) :
    RoomCapInv rooms classes initState := by
  intro c d t a h
  simp [initState] at h

theorem roomCapInv_congr (rooms : List Room) (classes : List SchoolClass)
    (st st' : SState) (hc : st'.class_schedule = st.class_schedule)
    (h : RoomCapInv rooms classes st) : RoomCapInv rooms classes st' := by
  intro c d t a hcell
  rw [hc] at hcell
  exact h c d t a hcell

theorem roomCapInv_assign (rooms : List Room) (classes : List SchoolClass)
    (st : SState) (course : Course) (cn tn rn d : String) (t : Slot)
    (hroom : ∃ room ∈ rooms, room.name = rn ∧ get_class_size classes cn ≤ room.capacity)
    (h : RoomCapInv rooms classes st) :
    RoomCapInv rooms classes (assign_time_slot st course cn tn rn d t) := by
  intro c' d' t' a hcell
  simp only [assign_time_slot, writeCell] at hcell
  by_cases hkey : c' = cn ∧ d' = d ∧ t' = t
  · rw [if_pos hkey] at hcell
    have ha : a = ⟨course.name, tn, rn, cn, d, t⟩ := by
      cases hcell; rfl
    subst ha
    exact hroom
  · rw [if_neg hkey] at hcell
    exact h c' d' t' a hcell

theorem run_sessions_roomCapInv (g : Shuffle) (dl : List String) (ts : List Slot)
    (rooms : List Room) (classes : List SchoolClass) (course : Course) (csize : Nat)
    (hperm : PermFair g) (hcs : csize = get_class_size classes course.cls) :
    ∀ (n : Nat) (ad : List String) (st : SState), RoomCapInv rooms classes st →
      RoomCapInv rooms classes (run_sessions g dl ts rooms course csize n ad st).1 := by
  intro n
  induction n with
  | zero => intro ad st h; exact h
  | succ m ih =>
    intro ad st h
    rw [run_sessions]
    dsimp only
    split
    next day room_name time_slot st2 hres =>
      rcases try_days_success g rooms ts course.cls course.teacher csize ad dl.length
          (g String st.pos dl) { st with pos := st.pos + 1 } day room_name time_slot st2
          hres with ⟨s1, _, _, _, _, _, s7⟩
      rcases s7 hperm with ⟨room, hmem, hname, hcap⟩
      have hinv2 : RoomCapInv rooms classes st2 :=
        roomCapInv_congr rooms classes { st with pos := st.pos + 1 } st2 s1 h
      refine ih _ _ (roomCapInv_assign rooms classes st2 course course.cls course.teacher
        room_name day time_slot ⟨room, hmem, hname, ?_⟩ hinv2)
      rw [← hcs]
      exact hcap
    next st2 hres =>
      have hst2 := try_days_state g rooms ts course.cls course.teacher csize ad dl.length
        (g String st.pos dl) { st with pos := st.pos + 1 }
      rw [hres] at hst2
      dsimp only at hst2
      exact ih _ _ (roomCapInv_congr rooms classes { st with pos := st.pos + 1 } st2
        hst2.1 h)

theorem run_courses_roomCapInv (g : Shuffle) (dl : List String) (ts : List Slot)
    (rooms : List Room) (classes : List SchoolClass) (hperm : PermFair g) :
    ∀ (cs : List Course) (counts : SessionCounts) (st : SState),
      RoomCapInv rooms classes st →
      RoomCapInv rooms classes (run_courses g dl ts rooms classes cs counts st).1 := by
  intro cs
  induction cs with
  | nil => intro counts st h; exact h
  | cons course rest ih =>
    intro counts st h
    rw [run_courses]
    exact ih _ _ (run_sessions_roomCapInv g dl ts rooms classes course
      (get_class_size classes course.cls) hperm rfl course.frequency [] st h)

theorem get_class_size_eq (classes : List SchoolClass)
    (hnd : (classes.map SchoolClass.name).Nodup) (cl : SchoolClass) (hcl : cl ∈ classes) :
    get_class_size classes cl.name = cl.size := by
  induction classes with
  | nil => exact absurd hcl (List.not_mem_nil cl)
  | cons c rest ih =>
    rw [List.map_cons, List.nodup_cons] at hnd
    rw [get_class_size]
    by_cases hname : c.name = cl.name
    · rw [if_pos hname]
      rcases List.mem_cons.mp hcl with rfl | hcl'
      · rfl
      · exfalso
        exact hnd.1 (hname ▸ List.mem_map_of_mem SchoolClass.name hcl')
    · rw [if_neg hname]
      rcases List.mem_cons.mp hcl with rfl | hcl'
      · exact absurd rfl hname
      · exact ih hnd.2 hcl'

/-- C3: whenever the class names are unique and an assignment's class appears
in the classes list, the assignment's room is a room of the input whose
capacity is at least that class's size (for every grid and every permutation
oracle). -/
theorem room_capacity_invariant (g : Shuffle) (inp : ScheduleInput) (cfg : GridConfig)
    (hperm : PermFair g) (hnames : (inp.classes.map SchoolClass.name).Nodup) :
    ∀ a ∈ (generate_schedule_from_config g inp cfg).1, ∀ cl ∈ inp.classes,
      cl.name = a.cls →
      ∃ room ∈ inp.rooms, room.name = a.room ∧ cl.size ≤ room.capacity := by
  intro a ha cl hcl hname
  have hinv : RoomCapInv inp.rooms inp.classes
      (generate_core g inp (generate_time_slots cfg)).1 :=
    run_courses_roomCapInv g days (generate_time_slots cfg) inp.rooms inp.classes hperm
      (sortCourses inp.courses) (fun _ => 0) initState
      (roomCapInv_init inp.rooms inp.classes)
  have hsch : (generate_schedule_from_config g inp cfg).1 =
      collectSchedule (generate_core g inp (generate_time_slots cfg)).1
        (uniqueKeys (inp.classes.map SchoolClass.name)) days (generate_time_slots cfg) := rfl
  rw [hsch, mem_collectSchedule] at ha
  rcases ha with ⟨c, _, d, _, t, _, hcell⟩
  rcases hinv c d t a hcell with ⟨room, hmem, hrname, hcap⟩
  refine ⟨room, hmem, hrname, ?_⟩
  rw [← get_class_size_eq inp.classes hnames cl hcl, hname]
  exact hcap

/-- C3 witness: the capacity bound evaluated on a concrete run. -/
theorem room_capacity_invariant_witness :
    PermFair idShuffle ∧
    (([⟨"C", 25⟩] : List SchoolClass).map SchoolClass.name).Nodup ∧
    (∀ a ∈ (generate_schedule_from_config idShuffle
        ⟨[⟨"T"⟩], [⟨"R", 30⟩], [⟨"C", 25⟩], [⟨"M", "T", "C", 2⟩]⟩
        ⟨480, 915, 50, 10, "After period 3", 30⟩).1,
      ∀ cl ∈ ([⟨"C", 25⟩] : List SchoolClass), cl.name = a.cls →
        ∃ room ∈ ([⟨"R", 30⟩] : List Room),
          room.name = a.room ∧ cl.size ≤ room.capacity) :=
  ⟨fun _ _ l => List.Perm.refl l, by decide,
    room_capacity_invariant idShuffle
      ⟨[⟨"T"⟩], [⟨"R", 30⟩], [⟨"C", 25⟩], [⟨"M", "T", "C", 2⟩]⟩
      ⟨480, 915, 50, 10, "After period 3", 30⟩
      (fun _ _ l => List.Perm.refl l) (by decide)⟩

/-! ## The session tally -/

theorem orderedInsert_perm {α : Type} (le : α → α → Bool) (a : α) :
    ∀ l : List α, (orderedInsert le a l).Perm (a :: l) := by
  intro l
  induction l with
  | nil => exact List.Perm.refl _
  | cons b l ih =>
    rw [orderedInsert]
    by_cases h : le a b = true
    · rw [if_pos h]
    · rw [if_neg h]
      exact (ih.cons b).trans (List.Perm.swap a b l)

theorem insertionSort_perm {α : Type} (le : α → α → Bool) :
    ∀ l : List α, (insertionSort le l).Perm l := by
  intro l
  induction l with
  | nil => exact List.Perm.refl _
  | cons a l ih =>
    rw [insertionSort]
    exact (orderedInsert_perm le a (insertionSort le l)).trans (ih.cons a)

theorem sortCourses_perm (courses : List Course) : (sortCourses courses).Perm courses :=
  insertionSort_perm courseLE courses

theorem run_sessions_count_le (g : Shuffle) (dl : List String) (ts : List Slot)
    (rooms : List Room) (course : Course) (csize : Nat) :
    ∀ (n : Nat) (ad : List String) (st : SState),
      (run_sessions g dl ts rooms course csize n ad st).2.2.1 ≤ n := by
  intro n
  induction n with
  | zero => intro ad st; exact Nat.le_refl _
  | succ m ih =>
    intro ad st
    rw [run_sessions]
    dsimp only
    split
    next day room_name time_slot st2 _ =>
      exact Nat.succ_le_succ (ih _ _)
    next st2 _ =>
      exact Nat.le_succ_of_le (ih _ _)

theorem run_courses_counts_le (g : Shuffle) (dl : List String) (ts : List Slot)
    (rooms : List Room) (classes : List SchoolClass) :
    ∀ (cs : List Course) (counts : SessionCounts) (st : SState) (key : String × String),
      (run_courses g dl ts rooms classes cs counts st).2.1 key ≤
        counts key +
          ((cs.filter (fun c => decide ((c.name, c.cls) = key))).map Course.frequency).sum := by
  intro cs
  induction cs with
  | nil => intro counts st key; simp [run_courses]
  | cons course rest ih =>
    intro counts st key
    rw [run_courses]
    dsimp only
    have hk := run_sessions_count_le g dl ts rooms course
      (get_class_size classes course.cls) course.frequency [] st
    by_cases hkey : key = (course.name, course.cls)
    · rw [List.filter_cons_of_pos (by rw [decide_eq_true_eq]; exact hkey.symm)]
      refine Nat.le_trans (ih _ _ key) ?_
      simp only [bumpCount, if_pos hkey, List.map_cons, List.sum_cons]
      omega
    · rw [List.filter_cons_of_neg (by
        rw [decide_eq_true_eq]
        exact fun h => hkey h.symm)]
      refine Nat.le_trans (ih _ _ key) ?_
      simp only [bumpCount, if_neg hkey]
      exact Nat.le_refl _

theorem filter_key_eq_single (courses : List Course)
    (hnd : (courses.map (fun c => (c.name, c.cls))).Nodup) (c : Course)
    (hc : c ∈ courses) :
    courses.filter (fun x => decide ((x.name, x.cls) = (c.name, c.cls))) = [c] := by
  induction courses with
  | nil => exact absurd hc (List.not_mem_nil c)
  | cons x rest ih =>
    rw [List.map_cons, List.nodup_cons] at hnd
    by_cases hx : (x.name, x.cls) = (c.name, c.cls)
    · rw [List.filter_cons_of_pos (by rw [decide_eq_true_eq]; exact hx)]
      have hxc : x = c := by
        rcases List.mem_cons.mp hc with rfl | hc'
        · rfl
        · exfalso
          refine hnd.1 ?_
          rw [hx]
          exact List.mem_map_of_mem (fun c => (c.name, c.cls)) hc'
      have hnil : rest.filter (fun x => decide ((x.name, x.cls) = (c.name, c.cls))) = [] := by
        rw [List.filter_eq_nil_iff]
        intro y hy hpy
        rw [decide_eq_true_eq] at hpy
        refine hnd.1 ?_
        rw [hx, ← hpy]
        exact List.mem_map_of_mem (fun c => (c.name, c.cls)) hy
      rw [hnil, hxc]
    · rw [List.filter_cons_of_neg (by rw [decide_eq_true_eq]; exact hx)]
      rcases List.mem_cons.mp hc with rfl | hc'
      · exact absurd rfl hx
      · exact ih hnd.2 hc'

theorem requiredSessions_eq (courses : List Course)
    (hnd : (courses.map (fun c => (c.name, c.cls))).Nodup) (c : Course)
    (hc : c ∈ courses) :
    requiredSessions courses (c.name, c.cls) = c.frequency := by
  induction courses with
  | nil => exact absurd hc (List.not_mem_nil c)
  | cons x rest ih =>
    rw [List.map_cons, List.nodup_cons] at hnd
    rw [requiredSessions]
    by_cases hx : x.name = c.name ∧ x.cls = c.cls
    · rw [if_pos hx]
      rcases List.mem_cons.mp hc with rfl | hc'
      · rfl
      · exfalso
        refine hnd.1 ?_
        have : (x.name, x.cls) = (c.name, c.cls) := by rw [hx.1, hx.2]
        rw [this]
        exact List.mem_map_of_mem (fun c => (c.name, c.cls)) hc'
    · rw [if_neg hx]
      rcases List.mem_cons.mp hc with rfl | hc'
      · exact absurd ⟨rfl, rfl⟩ hx
      · exact ih hnd.2 hc'

/-- C2: for inputs whose courses have pairwise distinct (name, class) keys,
the tallied fulfilled-session count of every course never exceeds its required
frequency, and whenever it falls short, `generate_schedule`'s conflict list
contains the *Frequency Not Met* record for that (course, class) pair carrying
the fulfilled/required numbers. -/
theorem frequency_fulfillment (g : Shuffle) (inp : ScheduleInput) (time_slots : List Slot)
    (hkeys : (inp.courses.map (fun c => (c.name, c.cls))).Nodup)
    (course : Course) (hc : course ∈ inp.courses) :
    (generate_core g inp time_slots).2.1 (course.name, course.cls) ≤ course.frequency ∧
    ((generate_core g inp time_slots).2.1 (course.name, course.cls) < course.frequency →
      frequencyConflict course.name course.cls
        ((generate_core g inp time_slots).2.1 (course.name, course.cls)) course.frequency
        ∈ (generate_schedule g inp time_slots).2) := by
  have hle : (generate_core g inp time_slots).2.1 (course.name, course.cls) ≤
      course.frequency := by
    have hb := run_courses_counts_le g days time_slots inp.rooms inp.classes
      (sortCourses inp.courses) (fun _ => 0) initState (course.name, course.cls)
    have hperm : ((sortCourses inp.courses).filter
        (fun x => decide ((x.name, x.cls) = (course.name, course.cls)))).Perm
        (inp.courses.filter
          (fun x => decide ((x.name, x.cls) = (course.name, course.cls)))) :=
      (sortCourses_perm inp.courses).filter _
    have hsum := (hperm.map Course.frequency).sum_eq
    rw [filter_key_eq_single inp.courses hkeys course hc] at hsum
    simp only [List.map_cons, List.map_nil, List.sum_cons, List.sum_nil] at hsum
    calc (generate_core g inp time_slots).2.1 (course.name, course.cls)
        ≤ _ := hb
      _ = course.frequency := by rw [hsum]; omega
  refine ⟨hle, ?_⟩
  intro hlt
  have hcf : (generate_schedule g inp time_slots).2 =
      (generate_core g inp time_slots).2.2
        ++ teacherConflicts (generate_core g inp time_slots).1
            (uniqueKeys (inp.teachers.map Teacher.name))
            (uniqueKeys (inp.classes.map SchoolClass.name)) days time_slots
        ++ roomConflicts (generate_core g inp time_slots).1
            (uniqueKeys (inp.rooms.map Room.name))
            (uniqueKeys (inp.classes.map SchoolClass.name)) days time_slots
        ++ frequencyConflicts inp.courses (generate_core g inp time_slots).2.1 := rfl
  rw [hcf]
  refine List.mem_append.2 (Or.inr ?_)
  unfold frequencyConflicts
  refine List.mem_flatMap.2 ⟨(course.name, course.cls), ?_, ?_⟩
  · rw [mem_uniqueKeys]
    exact List.mem_map_of_mem (fun c => (c.name, c.cls)) hc
  · dsimp only
    rw [requiredSessions_eq inp.courses hkeys course hc, if_pos hlt]
    exact List.mem_singleton.2 rfl

/-- C2 witness: a three-session course on an empty grid fulfills 0 of 3
sessions and the Frequency Not Met record is reported. -/
theorem frequency_fulfillment_witness :
    ((([⟨"M", "T", "C", 3⟩] : List Course)).map (fun c => (c.name, c.cls))).Nodup ∧
    (⟨"M", "T", "C", 3⟩ : Course) ∈ ([⟨"M", "T", "C", 3⟩] : List Course) ∧
    ((generate_core idShuffle ⟨[⟨"T"⟩], [⟨"R", 30⟩], [⟨"C", 25⟩], [⟨"M", "T", "C", 3⟩]⟩
        []).2.1 ("M", "C") ≤ 3 ∧
      ((generate_core idShuffle ⟨[⟨"T"⟩], [⟨"R", 30⟩], [⟨"C", 25⟩], [⟨"M", "T", "C", 3⟩]⟩
          []).2.1 ("M", "C") < 3 →
        frequencyConflict "M" "C"
          ((generate_core idShuffle
            ⟨[⟨"T"⟩], [⟨"R", 30⟩], [⟨"C", 25⟩], [⟨"M", "T", "C", 3⟩]⟩ []).2.1 ("M", "C")) 3
          ∈ (generate_schedule idShuffle
              ⟨[⟨"T"⟩], [⟨"R", 30⟩], [⟨"C", 25⟩], [⟨"M", "T", "C", 3⟩]⟩ []).2)) :=
  ⟨by decide, by decide,
    frequency_fulfillment idShuffle
      ⟨[⟨"T"⟩], [⟨"R", 30⟩], [⟨"C", 25⟩], [⟨"M", "T", "C", 3⟩]⟩ [] (by decide)
      ⟨"M", "T", "C", 3⟩ (by decide)⟩

/-! ## Scheduling against an empty slot grid -/

theorem permFair_nil {g : Shuffle} (hperm : PermFair g) (α : Type) (k : Nat) :
    g α k [] = [] :=
  (hperm α k []).eq_nil

theorem try_days_nil_slots (g : Shuffle) (rooms : List Room) (cn tn : String)
    (csize : Nat) (ad : List String) (ndays : Nat) (hperm : PermFair g) :
    ∀ (cands : List String) (st : SState), ∃ st' : SState,
      try_days g rooms [] cn tn csize ad ndays st cands = (none, st') := by
  intro cands
  induction cands with
  | nil => intro st; exact ⟨st, rfl⟩
  | cons day rest ih =>
    intro st
    rw [try_days]
    by_cases hskip : day ∈ ad ∧ ad.length < ndays
    · rw [if_pos hskip]
      exact ih st
    · rw [if_neg hskip]
      dsimp only
      rw [permFair_nil hperm Slot st.pos]
      rw [try_slots]
      exact ih _

theorem run_sessions_nil_slots (g : Shuffle) (dl : List String) (rooms : List Room)
    (course : Course) (csize : Nat) (hperm : PermFair g) :
    ∀ (n : Nat) (ad : List String) (st : SState), ∃ st' : SState,
      run_sessions g dl [] rooms course csize n ad st =
        (st', ad, 0, List.replicate n (unscheduledConflict course)) := by
  intro n
  induction n with
  | zero => intro ad st; exact ⟨st, rfl⟩
  | succ m ih =>
    intro ad st
    rw [run_sessions]
    dsimp only
    rcases try_days_nil_slots g rooms course.cls course.teacher csize ad dl.length hperm
      (g String st.pos dl) { st with pos := st.pos + 1 } with ⟨st2, hst2⟩
    rw [hst2]
    dsimp only
    rcases ih ad st2 with ⟨st3, hst3⟩
    rw [hst3]
    exact ⟨st3, rfl⟩

theorem run_courses_nil_slots (g : Shuffle) (dl : List String) (rooms : List Room)
    (classes : List SchoolClass) (hperm : PermFair g) :
    ∀ (cs : List Course) (counts : SessionCounts) (st : SState),
      (∀ key, (run_courses g dl [] rooms classes cs counts st).2.1 key = counts key) ∧
      (run_courses g dl [] rooms classes cs counts st).2.2 =
        cs.flatMap (fun c => List.replicate c.frequency (unscheduledConflict c)) := by
  intro cs
  induction cs with
  | nil => intro counts st; exact ⟨fun key => rfl, rfl⟩
  | cons course rest ih =>
    intro counts st
    rw [run_courses]
    dsimp only
    rcases run_sessions_nil_slots g dl rooms course (get_class_size classes course.cls)
      hperm course.frequency [] st with ⟨st1, hst1⟩
    rw [hst1]
    dsimp only
    rcases ih (bumpCount counts (course.name, course.cls) 0) st1 with ⟨hcnt, hcfl⟩
    refine ⟨?_, ?_⟩
    · intro key
      rw [hcnt key]
      simp only [bumpCount]
      by_cases hkey : key = (course.name, course.cls)
      · rw [if_pos hkey, Nat.add_zero]
      · rw [if_neg hkey]
    · rw [hcfl, List.flatMap_cons]

theorem uniqueKeysAux_eq_of_nodup {α : Type} [DecidableEq α] :
    ∀ (l seen : List α), l.Nodup → (∀ x ∈ l, x ∉ seen) → uniqueKeysAux seen l = l := by
  intro l
  induction l with
  | nil => intro seen _ _; rfl
  | cons y ys ih =>
    intro seen hnd hns
    rcases List.nodup_cons.1 hnd with ⟨hny, hnd'⟩
    rw [uniqueKeysAux, if_neg (hns y (List.mem_cons_self _ _))]
    rw [ih (y :: seen) hnd']
    intro x hx
    intro hc
    rcases List.mem_cons.mp hc with rfl | hc'
    · exact hny hx
    · exact hns x (List.mem_cons_of_mem _ hx) hc'

theorem uniqueKeys_eq_of_nodup {α : Type} [DecidableEq α] (l : List α) (h : l.Nodup) :
    uniqueKeys l = l :=
  uniqueKeysAux_eq_of_nodup l [] h (fun x _ => List.not_mem_nil x)

theorem flatMap_map_eq {α β γ : Type} (l : List α) (f : α → β) (F : β → List γ) :
    (l.map f).flatMap F = l.flatMap (fun x => F (f x)) := by
  induction l with
  | nil => rfl
  | cons x xs ih => rw [List.map_cons, List.flatMap_cons, List.flatMap_cons, ih]

theorem flatMap_congr_mem {α β : Type} (l : List α) (f g : α → List β)
    (h : ∀ x ∈ l, f x = g x) : l.flatMap f = l.flatMap g := by
  induction l with
  | nil => rfl
  | cons x xs ih =>
    rw [List.flatMap_cons, List.flatMap_cons, h x (List.mem_cons_self _ _),
      ih (fun y hy => h y (List.mem_cons_of_mem _ hy))]

/-- C10: a grid whose first slot cannot fit yields an empty slot sequence and
`generate_schedule` raises nothing: it returns no assignments, one
*Unscheduled Session* record per required session of every course (in
scheduling order), and one *Frequency Not Met* record (0 fulfilled) for every
course with positive frequency. -/
theorem empty_grid_behavior (g : Shuffle) (inp : ScheduleInput) (cfg : GridConfig)
    (hperm : PermFair g)
    (hempty : cfg.end_minutes < cfg.start_minutes + cfg.period_length)
    (hkeys : (inp.courses.map (fun c => (c.name, c.cls))).Nodup) :
    generate_schedule_from_config g inp cfg =
      ([],
        (sortCourses inp.courses).flatMap
          (fun c => List.replicate c.frequency (unscheduledConflict c))
        ++ inp.courses.flatMap
          (fun c => if 0 < c.frequency then
            [frequencyConflict c.name c.cls 0 c.frequency] else [])) := by
  have hnil : generate_time_slots cfg = [] :=
    (generate_time_slots_eq_nil_iff cfg).2 hempty
  rw [generate_schedule_from_config, hnil]
  rcases run_courses_nil_slots g days inp.rooms inp.classes hperm (sortCourses inp.courses)
    (fun _ => 0) initState with ⟨hcnt, hcfl⟩
  have hsch : (generate_schedule g inp []).1 = [] := by
    have : (generate_schedule g inp []).1 =
        collectSchedule (generate_core g inp []).1
          (uniqueKeys (inp.classes.map SchoolClass.name)) days [] := rfl
    rw [this]
    unfold collectSchedule
    rw [List.flatMap_eq_nil_iff]
    intro c _
    rw [List.flatMap_eq_nil_iff]
    intro d _
    rfl
  have htc : teacherConflicts (generate_core g inp []).1
      (uniqueKeys (inp.teachers.map Teacher.name))
      (uniqueKeys (inp.classes.map SchoolClass.name)) days [] = [] := by
    unfold teacherConflicts
    rw [List.flatMap_eq_nil_iff]
    intro tn _
    rw [List.flatMap_eq_nil_iff]
    intro d _
    rfl
  have hrc : roomConflicts (generate_core g inp []).1
      (uniqueKeys (inp.rooms.map Room.name))
      (uniqueKeys (inp.classes.map SchoolClass.name)) days [] = [] := by
    unfold roomConflicts
    rw [List.flatMap_eq_nil_iff]
    intro rn _
    rw [List.flatMap_eq_nil_iff]
    intro d _
    rfl
  have hfc : frequencyConflicts inp.courses (generate_core g inp []).2.1 =
      inp.courses.flatMap (fun c => if 0 < c.frequency then
        [frequencyConflict c.name c.cls 0 c.frequency] else []) := by
    unfold frequencyConflicts
    rw [uniqueKeys_eq_of_nodup _ hkeys, flatMap_map_eq]
    refine flatMap_congr_mem _ _ _ ?_
    intro c hc
    dsimp only
    rw [requiredSessions_eq inp.courses hkeys c hc]
    have hzero : (generate_core g inp []).2.1 (c.name, c.cls) = 0 := hcnt _
    rw [hzero]
  have hcf : (generate_schedule g inp []).2 =
      (generate_core g inp []).2.2
        ++ teacherConflicts (generate_core g inp []).1
            (uniqueKeys (inp.teachers.map Teacher.name))
            (uniqueKeys (inp.classes.map SchoolClass.name)) days []
        ++ roomConflicts (generate_core g inp []).1
            (uniqueKeys (inp.rooms.map Room.name))
            (uniqueKeys (inp.classes.map SchoolClass.name)) days []
        ++ frequencyConflicts inp.courses (generate_core g inp []).2.1 := rfl
  have hcfl2 : (generate_core g inp []).2.2 =
      (sortCourses inp.courses).flatMap
        (fun c => List.replicate c.frequency (unscheduledConflict c)) := hcfl
  have : generate_schedule g inp [] = ((generate_schedule g inp []).1,
      (generate_schedule g inp []).2) := rfl
  rw [this, hsch, hcf, htc, hrc, hfc, hcfl2]
  rw [List.append_nil, List.append_nil]

/-- C10 witness: two courses (frequencies 2 and 1) on an unbuildable grid:
three unscheduled-session records and two frequency records. -/
theorem empty_grid_behavior_witness :
    PermFair idShuffle ∧ 500 < 480 + 50 ∧
    ((([⟨"A", "T", "C", 2⟩, ⟨"B", "T", "C", 1⟩] : List Course)).map
      (fun c => (c.name, c.cls))).Nodup ∧
    generate_schedule_from_config idShuffle
        ⟨[⟨"T"⟩], [⟨"R", 30⟩], [⟨"C", 25⟩], [⟨"A", "T", "C", 2⟩, ⟨"B", "T", "C", 1⟩]⟩
        ⟨480, 500, 50, 10, "No lunch", 30⟩ =
      ([],
        (sortCourses [⟨"A", "T", "C", 2⟩, ⟨"B", "T", "C", 1⟩]).flatMap
          (fun c => List.replicate c.frequency (unscheduledConflict c))
        ++ ([⟨"A", "T", "C", 2⟩, ⟨"B", "T", "C", 1⟩] : List Course).flatMap
          (fun c => if 0 < c.frequency then
            [frequencyConflict c.name c.cls 0 c.frequency] else [])) :=
  ⟨fun _ _ l => List.Perm.refl l, by decide, by decide,
    empty_grid_behavior idShuffle
      ⟨[⟨"T"⟩], [⟨"R", 30⟩], [⟨"C", 25⟩], [⟨"A", "T", "C", 2⟩, ⟨"B", "T", "C", 1⟩]⟩
      ⟨480, 500, 50, 10, "No lunch", 30⟩
      (fun _ _ l => List.Perm.refl l) (by decide) (by decide)⟩

/-! ## The one-course five-session scenario -/

/-- Run invariant for a single course ⟨nm, tn, cn, 5⟩ with one room `rn`:
the used-day set is a duplicate-free subset of the week, the teacher and room
rows mirror the class row, unused days are fully free, and every used day
holds exactly one committed session in some grid slot. -/
def OneCourseInv (nm tn rn cn : String) (slots : List Slot) (ad : List String)
    (st : SState) : Prop :=
  ad.Nodup ∧ ad ⊆ days ∧
  (∀ d t, st.teacher_schedule tn d t = st.class_schedule cn d t) ∧
  (∀ d t, st.room_schedule rn d t = st.class_schedule cn d t) ∧
  (∀ d, d ∉ ad → ∀ t, st.class_schedule cn d t = none) ∧
  (∀ d, d ∈ ad → ∃ t0, t0 ∈ slots ∧
    ∀ t, st.class_schedule cn d t =
      if t = t0 then some ⟨nm, tn, rn, cn, d, t0⟩ else none)

theorem oneCourseInv_init (nm tn rn cn : String) (slots : List Slot) :
    OneCourseInv nm tn rn cn slots [] initState := by
  refine ⟨List.nodup_nil, List.nil_subset _, fun d t => rfl, fun d t => rfl,
    fun d _ t => rfl, fun d hd => absurd hd (List.not_mem_nil d)⟩

theorem oneCourseInv_congr (nm tn rn cn : String) (slots : List Slot)
    (ad : List String) (st st' : SState)
    (hc : st'.class_schedule = st.class_schedule)
    (ht : st'.teacher_schedule = st.teacher_schedule)
    (hr : st'.room_schedule = st.room_schedule)
    (h : OneCourseInv nm tn rn cn slots ad st) :
    OneCourseInv nm tn rn cn slots ad st' := by
  rcases h with ⟨h1, h2, h3, h4, h5, h6⟩
  exact ⟨h1, h2, by rw [hc, ht]; exact h3, by rw [hc, hr]; exact h4,
    by rw [hc]; exact h5, by rw [hc]; exact h6⟩

theorem c4_try_slots (g : Shuffle) (hperm : PermFair g) (nm tn rn cn : String)
    (st : SState) (d : String)
    (hmt : ∀ d' t, st.teacher_schedule tn d' t = st.class_schedule cn d' t)
    (hmr : ∀ d' t, st.room_schedule rn d' t = st.class_schedule cn d' t)
    (hfree : ∀ t, st.class_schedule cn d t = none) :
    ∀ (l : List Slot), l ≠ [] →
      ∃ t st', try_slots g [⟨rn, 30⟩] cn tn 25 d st l = (some (rn, t), st') ∧ t ∈ l ∧
        st'.class_schedule = st.class_schedule ∧
        st'.teacher_schedule = st.teacher_schedule ∧
        st'.room_schedule = st.room_schedule := by
  intro l hl
  cases l with
  | nil => exact absurd rfl hl
  | cons t rest =>
    refine ⟨t, { st with pos := st.pos + 1 }, ?_, List.mem_cons_self _ _, rfl, rfl, rfl⟩
    rw [try_slots]
    have hsuit : ([⟨rn, 30⟩] : List Room).filter
        (fun room => decide (25 ≤ room.capacity)) = [⟨rn, 30⟩] := by
      rfl
    have hshuf : g Room st.pos ([⟨rn, 30⟩] : List Room) = [⟨rn, 30⟩] :=
      List.perm_singleton.1 (hperm Room st.pos _)
    have hfr : firstFreeRoom st d t [⟨rn, 30⟩] = some rn := by
      rw [firstFreeRoom]
      rw [if_pos]
      rw [Option.isNone_iff_eq_none, hmr, hfree]
    have hav : is_slot_available { st with pos := st.pos + 1 } cn tn rn d t = true := by
      rw [is_slot_available_iff]
      exact ⟨hfree t, by rw [hmt, hfree], by rw [hmr, hfree]⟩
    simp only [find_available_room, hsuit, hshuf, hfr]
    rw [if_pos hav]

theorem c4_try_days (g : Shuffle) (hperm : PermFair g) (nm tn rn cn : String)
    (slots : List Slot) (hslots : slots ≠ []) (ad : List String) (hlen : ad.length < 5)
    (st : SState)
    (hmt : ∀ d' t, st.teacher_schedule tn d' t = st.class_schedule cn d' t)
    (hmr : ∀ d' t, st.room_schedule rn d' t = st.class_schedule cn d' t)
    (hfree : ∀ d, d ∉ ad → ∀ t, st.class_schedule cn d t = none) :
    ∀ (cands : List String), (∃ d ∈ cands, d ∉ ad) →
      ∃ d t st', try_days g [⟨rn, 30⟩] slots cn tn 25 ad 5 st cands =
          (some (d, rn, t), st') ∧
        d ∈ cands ∧ d ∉ ad ∧ t ∈ slots ∧
        st'.class_schedule = st.class_schedule ∧
        st'.teacher_schedule = st.teacher_schedule ∧
        st'.room_schedule = st.room_schedule := by
  intro cands
  induction cands with
  | nil => rintro ⟨d, hd, _⟩; exact absurd hd (List.not_mem_nil d)
  | cons day rest ih =>
    rintro ⟨d0, hd0, hnd0⟩
    by_cases hmem : day ∈ ad
    · rw [try_days, if_pos ⟨hmem, hlen⟩]
      have hd0' : d0 ∈ rest := by
        rcases List.mem_cons.mp hd0 with rfl | h
        · exact absurd hmem hnd0
        · exact h
      rcases ih ⟨d0, hd0', hnd0⟩ with ⟨d, t, st', heq, hdc, hdna, hts, e1, e2, e3⟩
      exact ⟨d, t, st', heq, List.mem_cons_of_mem _ hdc, hdna, hts, e1, e2, e3⟩
    · rw [try_days, if_neg (fun hc => hmem hc.1)]
      dsimp only
      have hshufne : g Slot st.pos slots ≠ [] := by
        intro hc
        have := (hperm Slot st.pos slots).length_eq
        rw [hc] at this
        exact hslots (List.eq_nil_of_length_eq_zero this.symm)
      rcases c4_try_slots g hperm nm tn rn cn { st with pos := st.pos + 1 } day
          hmt hmr (hfree day hmem) (g Slot st.pos slots) hshufne with
        ⟨t, st', heq, htmem, e1, e2, e3⟩
      rw [heq]
      exact ⟨day, t, st', rfl, List.mem_cons_self _ _, hmem,
        ((hperm Slot st.pos slots).mem_iff).1 htmem, e1, e2, e3⟩

theorem c4_commit (nm tn rn cn : String) (slots : List Slot) (ad : List String)
    (st : SState) (d : String) (t : Slot)
    (hinv : OneCourseInv nm tn rn cn slots ad st) (hd : d ∈ days) (hnd : d ∉ ad)
    (ht : t ∈ slots) :
    OneCourseInv nm tn rn cn slots (insertDay d ad)
      (assign_time_slot st ⟨nm, tn, cn, 5⟩ cn tn rn d t) := by
  rcases hinv with ⟨h1, h2, h3, h4, h5, h6⟩
  rw [insertDay, if_neg hnd]
  refine ⟨List.nodup_cons.2 ⟨hnd, h1⟩, ?_, ?_, ?_, ?_, ?_⟩
  · intro x hx
    rcases List.mem_cons.mp hx with rfl | hx
    · exact hd
    · exact h2 hx
  · intro d' t'
    simp only [assign_time_slot, writeCell]
    by_cases hk : d' = d ∧ t' = t
    · rw [if_pos ⟨by trivial, hk.1, hk.2⟩, if_pos ⟨by trivial, hk.1, hk.2⟩]
    · rw [if_neg (fun hc => hk ⟨hc.2.1, hc.2.2⟩), if_neg (fun hc => hk ⟨hc.2.1, hc.2.2⟩)]
      exact h3 d' t'
  · intro d' t'
    simp only [assign_time_slot, writeCell]
    by_cases hk : d' = d ∧ t' = t
    · rw [if_pos ⟨by trivial, hk.1, hk.2⟩, if_pos ⟨by trivial, hk.1, hk.2⟩]
    · rw [if_neg (fun hc => hk ⟨hc.2.1, hc.2.2⟩), if_neg (fun hc => hk ⟨hc.2.1, hc.2.2⟩)]
      exact h4 d' t'
  · intro d' hd' t'
    simp only [assign_time_slot, writeCell]
    have hdd : d' ≠ d := fun hc => hd' (hc ▸ List.mem_cons_self _ _)
    rw [if_neg (fun hc => hdd hc.2.1)]
    exact h5 d' (fun hc => hd' (List.mem_cons_of_mem _ hc)) t'
  · intro d' hd'
    rcases List.mem_cons.mp hd' with rfl | hd'
    · refine ⟨t, ht, ?_⟩
      intro t''
      simp only [assign_time_slot, writeCell]
      by_cases hk : t'' = t
      · rw [if_pos ⟨by trivial, by trivial, hk⟩, if_pos hk]
      · rw [if_neg (fun hc => hk hc.2.2), if_neg hk]
        exact h5 d' hnd t''
    · rcases h6 d' hd' with ⟨t0, ht0, hrow⟩
      refine ⟨t0, ht0, ?_⟩
      intro t''
      simp only [assign_time_slot, writeCell]
      have hdd : d' ≠ d := fun hc => hnd (hc ▸ hd')
      rw [if_neg (fun hc => hdd hc.2.1)]
      exact hrow t''

theorem c4_run_sessions (g : Shuffle) (hperm : PermFair g) (nm tn rn cn : String)
    (slots : List Slot) (hslots : slots ≠ []) :
    ∀ (n : Nat) (ad : List String) (st : SState),
      OneCourseInv nm tn rn cn slots ad st → ad.length + n ≤ 5 →
      ∃ st' ad',
        run_sessions g days slots [⟨rn, 30⟩] ⟨nm, tn, cn, 5⟩ 25 n ad st =
          (st', ad', n, []) ∧
        OneCourseInv nm tn rn cn slots ad' st' ∧ ad'.length = ad.length + n := by
  intro n
  induction n with
  | zero =>
    intro ad st hinv _
    exact ⟨st, ad, rfl, hinv, rfl⟩
  | succ m ih =>
    intro ad st hinv hbound
    have hlen : ad.length < 5 := by omega
    have hex : ∃ d ∈ g String st.pos days, d ∉ ad := by
      have hdays : ∃ d ∈ days, d ∉ ad := by
        by_contra hc
        push_neg at hc
        have hsub : days ⊆ ad := hc
        have := (List.subperm_of_subset (by decide) hsub).length_le
        have hd5 : days.length = 5 := by decide
        omega
      rcases hdays with ⟨d, hd, hnd⟩
      exact ⟨d, ((hperm String st.pos days).mem_iff).2 hd, hnd⟩
    rcases hinv with ⟨h1, h2, h3, h4, h5, h6⟩
    rcases c4_try_days g hperm nm tn rn cn slots hslots ad hlen
        { st with pos := st.pos + 1 } h3 h4 h5 (g String st.pos days) hex with
      ⟨d, t, st2, heq, hdc, hdna, hts, e1, e2, e3⟩
    rw [run_sessions]
    dsimp only
    rw [show days.length = 5 from rfl]
    rw [heq]
    dsimp only
    have hdmem : d ∈ days := ((hperm String st.pos days).mem_iff).1 hdc
    have hinv2 : OneCourseInv nm tn rn cn slots ad st2 :=
      oneCourseInv_congr nm tn rn cn slots ad { st with pos := st.pos + 1 } st2
        e1 e2 e3 ⟨h1, h2, h3, h4, h5, h6⟩
    have hinv3 := c4_commit nm tn rn cn slots ad st2 d t hinv2 hdmem hdna hts
    have hlen2 : (insertDay d ad).length = ad.length + 1 := by
      rw [insertDay, if_neg hdna]
      rfl
    rcases ih (insertDay d ad) (assign_time_slot st2 ⟨nm, tn, cn, 5⟩ cn tn rn d t)
        hinv3 (by omega) with ⟨st', ad', heq', hinv', hlen'⟩
    rw [heq']
    refine ⟨st', ad', rfl, hinv', by omega⟩

theorem filterMap_single (l : List Slot) (t0 : Slot) (b : Assignment)
    (f : Slot → Option Assignment) (hnd : l.Nodup) (ht0 : t0 ∈ l)
    (hf : ∀ t, f t = if t = t0 then some b else none) :
    l.filterMap f = [b] := by
  induction l with
  | nil => exact absurd ht0 (List.not_mem_nil t0)
  | cons y rest ih =>
    rcases List.nodup_cons.1 hnd with ⟨hny, hnd'⟩
    by_cases hy : y = t0
    · rw [List.filterMap_cons_some (by rw [hf, if_pos hy])]
      have hnil : rest.filterMap f = [] := by
        rw [List.filterMap_eq_nil_iff]
        intro a ha
        rw [hf, if_neg]
        intro hc
        exact hny ((hy.trans hc.symm) ▸ ha)
      rw [hnil]
    · rw [List.filterMap_cons_none (by rw [hf, if_neg hy])]
      refine ih hnd' ?_
      rcases List.mem_cons.mp ht0 with rfl | h
      · exact absurd rfl hy
      · exact h

theorem flatMap_single_day (dl : List String) (F : String → List Assignment)
    (h : ∀ d ∈ dl, ∃ b : Assignment, F d = [b] ∧ b.day = d) :
    (dl.flatMap F).length = dl.length ∧ (dl.flatMap F).map Assignment.day = dl := by
  induction dl with
  | nil => exact ⟨rfl, rfl⟩
  | cons d rest ih =>
    rcases h d (List.mem_cons_self _ _) with ⟨b, hb, hday⟩
    rcases ih (fun x hx => h x (List.mem_cons_of_mem _ hx)) with ⟨ihl, ihm⟩
    rw [List.flatMap_cons, hb]
    constructor
    · simp only [List.length_append, List.length_cons, List.length_nil, ihl]
      omega
    · simp only [List.map_append, List.map_cons, List.map_nil, hday, ihm]
      rfl

/-- C4: one teacher, one room of capacity 30, one class of size 25 and one
course of frequency 5, on any duplicate-free grid of at least 5 slots per
day: every randomized run fulfills exactly 5 sessions, reports zero
conflicts, returns exactly 5 assignments, and places one assignment on each
of the 5 weekdays. -/
theorem five_sessions_scenario (g : Shuffle) (hperm : PermFair g)
    (tn rn cn nm : String) (slots : List Slot) (hnd : slots.Nodup)
    (hlen : 5 ≤ slots.length) :
    (generate_core g ⟨[⟨tn⟩], [⟨rn, 30⟩], [⟨cn, 25⟩], [⟨nm, tn, cn, 5⟩]⟩ slots).2.1
      (nm, cn) = 5 ∧
    (generate_schedule g ⟨[⟨tn⟩], [⟨rn, 30⟩], [⟨cn, 25⟩], [⟨nm, tn, cn, 5⟩]⟩ slots).2
      = [] ∧
    (generate_schedule g ⟨[⟨tn⟩], [⟨rn, 30⟩], [⟨cn, 25⟩], [⟨nm, tn, cn, 5⟩]⟩
      slots).1.length = 5 ∧
    (generate_schedule g ⟨[⟨tn⟩], [⟨rn, 30⟩], [⟨cn, 25⟩], [⟨nm, tn, cn, 5⟩]⟩
      slots).1.map Assignment.day = days := by
  have hslots_ne : slots ≠ [] := by
    intro h
    rw [h] at hlen
    exact absurd hlen (by decide)
  rcases c4_run_sessions g hperm nm tn rn cn slots hslots_ne 5 [] initState
      (oneCourseInv_init nm tn rn cn slots) (by simp) with
    ⟨st', ad', hrun, hinv', hlen'⟩
  have hgcs : get_class_size [(⟨cn, 25⟩ : SchoolClass)] cn = 25 := by
    rw [get_class_size, if_pos rfl]
  have hcore : generate_core g ⟨[⟨tn⟩], [⟨rn, 30⟩], [⟨cn, 25⟩], [⟨nm, tn, cn, 5⟩]⟩ slots
      = (st', bumpCount (fun _ => 0) (nm, cn) 5, []) := by
    unfold generate_core
    rw [show sortCourses [(⟨nm, tn, cn, 5⟩ : Course)] = [⟨nm, tn, cn, 5⟩] from rfl]
    rw [run_courses]
    dsimp only
    rw [hgcs, hrun]
    rfl
  have hcounts : (generate_core g
      ⟨[⟨tn⟩], [⟨rn, 30⟩], [⟨cn, 25⟩], [⟨nm, tn, cn, 5⟩]⟩ slots).2.1 (nm, cn) = 5 := by
    rw [hcore]
    simp [bumpCount]
  have hfc : frequencyConflicts [(⟨nm, tn, cn, 5⟩ : Course)]
      (generate_core g ⟨[⟨tn⟩], [⟨rn, 30⟩], [⟨cn, 25⟩], [⟨nm, tn, cn, 5⟩]⟩
        slots).2.1 = [] := by
    unfold frequencyConflicts
    rw [show uniqueKeys (([(⟨nm, tn, cn, 5⟩ : Course)]).map (fun c => (c.name, c.cls)))
      = [(nm, cn)] from rfl]
    rw [List.flatMap_cons, List.flatMap_nil]
    dsimp only
    rw [show requiredSessions [(⟨nm, tn, cn, 5⟩ : Course)] (nm, cn) = 5 from by
      rw [requiredSessions, if_pos ⟨rfl, rfl⟩]]
    rw [hcounts]
    rw [if_neg (by omega)]
    rfl
  have hinvC : CoreInv (generate_core g
      ⟨[⟨tn⟩], [⟨rn, 30⟩], [⟨cn, 25⟩], [⟨nm, tn, cn, 5⟩]⟩ slots).1 :=
    generate_core_coreInv g _ slots
  have hck : (uniqueKeys (([(⟨cn, 25⟩ : SchoolClass)]).map SchoolClass.name)).Nodup :=
    uniqueKeys_nodup _
  have hcf : (generate_schedule g
      ⟨[⟨tn⟩], [⟨rn, 30⟩], [⟨cn, 25⟩], [⟨nm, tn, cn, 5⟩]⟩ slots).2 = [] := by
    have hcf0 : (generate_schedule g
        ⟨[⟨tn⟩], [⟨rn, 30⟩], [⟨cn, 25⟩], [⟨nm, tn, cn, 5⟩]⟩ slots).2 =
        (generate_core g ⟨[⟨tn⟩], [⟨rn, 30⟩], [⟨cn, 25⟩], [⟨nm, tn, cn, 5⟩]⟩ slots).2.2
          ++ teacherConflicts (generate_core g
              ⟨[⟨tn⟩], [⟨rn, 30⟩], [⟨cn, 25⟩], [⟨nm, tn, cn, 5⟩]⟩ slots).1
            (uniqueKeys (([(⟨tn⟩ : Teacher)]).map Teacher.name))
            (uniqueKeys (([(⟨cn, 25⟩ : SchoolClass)]).map SchoolClass.name)) days slots
          ++ roomConflicts (generate_core g
              ⟨[⟨tn⟩], [⟨rn, 30⟩], [⟨cn, 25⟩], [⟨nm, tn, cn, 5⟩]⟩ slots).1
            (uniqueKeys (([(⟨rn, 30⟩ : Room)]).map Room.name))
            (uniqueKeys (([(⟨cn, 25⟩ : SchoolClass)]).map SchoolClass.name)) days slots
          ++ frequencyConflicts [(⟨nm, tn, cn, 5⟩ : Course)]
            (generate_core g
              ⟨[⟨tn⟩], [⟨rn, 30⟩], [⟨cn, 25⟩], [⟨nm, tn, cn, 5⟩]⟩ slots).2.1 := rfl
    rw [hcf0, teacherConflicts_eq_nil _ _ _ _ _ hck hinvC,
      roomConflicts_eq_nil _ _ _ _ _ hck hinvC, hfc]
    rw [show (generate_core g
      ⟨[⟨tn⟩], [⟨rn, 30⟩], [⟨cn, 25⟩], [⟨nm, tn, cn, 5⟩]⟩ slots).2.2 = [] from by
        rw [hcore]]
    rfl
  have had : ∀ d ∈ days, d ∈ ad' := by
    intro d hd
    have hsub : ad'.Subperm days :=
      List.subperm_of_subset hinv'.1 hinv'.2.1
    have hpermad : ad'.Perm days := by
      refine hsub.perm_of_length_le ?_
      rw [hlen']
      decide
    exact hpermad.mem_iff.2 hd
  have hsched : (generate_schedule g
      ⟨[⟨tn⟩], [⟨rn, 30⟩], [⟨cn, 25⟩], [⟨nm, tn, cn, 5⟩]⟩ slots).1 =
      days.flatMap (fun d => slots.filterMap (st'.class_schedule cn d)) := by
    have h0 : (generate_schedule g
        ⟨[⟨tn⟩], [⟨rn, 30⟩], [⟨cn, 25⟩], [⟨nm, tn, cn, 5⟩]⟩ slots).1 =
        collectSchedule (generate_core g
          ⟨[⟨tn⟩], [⟨rn, 30⟩], [⟨cn, 25⟩], [⟨nm, tn, cn, 5⟩]⟩ slots).1
          (uniqueKeys (([(⟨cn, 25⟩ : SchoolClass)]).map SchoolClass.name)) days slots := rfl
    rw [h0, hcore]
    unfold collectSchedule
    rw [show uniqueKeys (([(⟨cn, 25⟩ : SchoolClass)]).map SchoolClass.name) = [cn] from rfl]
    rw [List.flatMap_cons, List.flatMap_nil, List.append_nil]
  have hday : ∀ d ∈ days, ∃ b : Assignment,
      slots.filterMap (st'.class_schedule cn d) = [b] ∧ b.day = d := by
    intro d hd
    rcases hinv'.2.2.2.2.2 d (had d hd) with ⟨t0, ht0, hrow⟩
    exact ⟨⟨nm, tn, rn, cn, d, t0⟩,
      filterMap_single slots t0 ⟨nm, tn, rn, cn, d, t0⟩ _ hnd ht0 hrow, rfl⟩
  rcases flatMap_single_day days _ hday with ⟨hl, hm⟩
  refine ⟨hcounts, hcf, ?_, ?_⟩
  · rw [hsched, hl]
    decide
  · rw [hsched, hm]

/-- C4 witness: the scenario evaluated on a concrete 5-slot grid with the
identity oracle. -/
theorem five_sessions_scenario_witness :
    PermFair idShuffle ∧
    ([⟨480, 530⟩, ⟨540, 590⟩, ⟨600, 650⟩, ⟨660, 710⟩, ⟨720, 770⟩] : List Slot).Nodup ∧
    5 ≤ ([⟨480, 530⟩, ⟨540, 590⟩, ⟨600, 650⟩, ⟨660, 710⟩, ⟨720, 770⟩] : List Slot).length ∧
    ((generate_core idShuffle ⟨[⟨"T1"⟩], [⟨"R1", 30⟩], [⟨"C1", 25⟩], [⟨"Math", "T1", "C1", 5⟩]⟩
        [⟨480, 530⟩, ⟨540, 590⟩, ⟨600, 650⟩, ⟨660, 710⟩, ⟨720, 770⟩]).2.1
      ("Math", "C1") = 5 ∧
    (generate_schedule idShuffle
        ⟨[⟨"T1"⟩], [⟨"R1", 30⟩], [⟨"C1", 25⟩], [⟨"Math", "T1", "C1", 5⟩]⟩
        [⟨480, 530⟩, ⟨540, 590⟩, ⟨600, 650⟩, ⟨660, 710⟩, ⟨720, 770⟩]).2 = [] ∧
    (generate_schedule idShuffle
        ⟨[⟨"T1"⟩], [⟨"R1", 30⟩], [⟨"C1", 25⟩], [⟨"Math", "T1", "C1", 5⟩]⟩
        [⟨480, 530⟩, ⟨540, 590⟩, ⟨600, 650⟩, ⟨660, 710⟩, ⟨720, 770⟩]).1.length = 5 ∧
    (generate_schedule idShuffle
        ⟨[⟨"T1"⟩], [⟨"R1", 30⟩], [⟨"C1", 25⟩], [⟨"Math", "T1", "C1", 5⟩]⟩
        [⟨480, 530⟩, ⟨540, 590⟩, ⟨600, 650⟩, ⟨660, 710⟩, ⟨720, 770⟩]).1.map
      Assignment.day = days) :=
  ⟨fun _ _ l => List.Perm.refl l, by decide, by decide,
    five_sessions_scenario idShuffle (fun _ _ l => List.Perm.refl l) "T1" "R1" "C1" "Math"
      [⟨480, 530⟩, ⟨540, 590⟩, ⟨600, 650⟩, ⟨660, 710⟩, ⟨720, 770⟩]
      (by decide) (by decide)⟩

end CourseScheduler
